import Mathlib

/-!
# Verification of the adaptive fetch–merge–cache news pipeline

Shallow embedding of the core logic of `update_news` (request outcome
classification, budget-driven pagination, exact-phrase matching, cache
merge, retention filtering, and failure-safe persistence), together with
theorems settling the specification claims.

Modelling conventions:
* Python dictionaries of articles become Lean structures; an absent or
  `None` string field is modelled as `""` (matching `dict.get(k, "")`),
  and genuinely optional fields use `Option`.
* Wall-clock time, logging and metrics recording are omitted: they do not
  influence any control flow the claims are about.
* "Today" is threaded explicitly as a day ordinal; dates are compared via
  a faithful model of `datetime.strptime(s, "%Y-%m-%d")`.
* The floating-point duplicate-ratio early stop is kept abstract as a
  Boolean predicate parameter (floating point is not modelled); no claim
  depends on its value.
-/

namespace UpdateNews

/-! ## Characters and strings (ASCII model of Python semantics) -/

/-- ASCII lower-casing, the fragment of `str.lower()` / `re.IGNORECASE`
exercised by the pipeline's ASCII configuration strings. -/
def lowerChar (c : Char) : Char :=
  if 'A' ≤ c ∧ c ≤ 'Z' then Char.ofNat (c.toNat + 32) else c

/-- `\w` for ASCII: letters, digits and underscore (Python `re` word chars). -/
def isWordChar (c : Char) : Bool :=
  ('a' ≤ c && c ≤ 'z') || ('A' ≤ c && c ≤ 'Z') || ('0' ≤ c && c ≤ '9') || c == '_'

/-- `\s` for ASCII: the whitespace class of Python `re`. -/
def isSpaceChar (c : Char) : Bool :=
  c == ' ' || c == '\t' || c == '\n' || c == '\r' || c == '\x0b' || c == '\x0c'

/-- Lower-case every character of a string (ASCII model of `str.lower()`). -/
def lowerStr (s : String) : String :=
  (s.toList.map lowerChar).asString

/-- `n` a contiguous sublist of `h`: the model of Python's `needle in hay`. -/
def listContains (h n : List Char) : Bool :=
  match h with
  | [] => n.isEmpty
  | _ :: t => n.isPrefixOf h || listContains t n

/-- Python's substring test `needle in hay`. -/
def strContains (hay needle : String) : Bool :=
  listContains hay.toList needle.toList

/-- Python's string slice `s[:n]` (by code point, as in Python). -/
def strTake (s : String) (n : Nat) : String :=
  (s.toList.take n).asString

/-! ## Exact-phrase matching (`article_matches_exact_phrase`)

The source builds the regex `r'\b' + re.escape(phrase).replace('\\ ', r'\s+') + r'\b'`
and runs `re.search(pattern, title, re.IGNORECASE)`.  After `re.escape`
every character of the phrase is a literal except that each space character
becomes `\s+` (one or more whitespace characters).  We embed that pattern
directly: a phrase compiles to a list of items, matching is positional with
backtracking (the list of all possible unconsumed suffixes), and `\b` is the
XOR word-boundary test of `re`. -/

/-- One compiled pattern element: a literal character, or `\s+`. -/
inductive PatItem where
  | lit (c : Char)
  | sp
  deriving Repr, DecidableEq

/-- Compile a phrase exactly as the source does: every character is a
literal except each space, which `replace('\\ ', r'\s+')` turns into `\s+`. -/
def mkPat (phrase : String) : List PatItem :=
  phrase.toList.map (fun c => if c = ' ' then PatItem.sp else PatItem.lit c)

/-- All possible unconsumed suffixes of `s` after matching the pattern
items at the start of `s` (backtracking regex semantics, case-insensitive
literals as under `re.IGNORECASE`). -/
def matchItems (ps : List PatItem) : List Char → List (List Char)
  | [] => if ps.isEmpty then [[]] else []
  | x :: xs =>
      match ps with
      | [] => [x :: xs]
      | PatItem.lit c :: ps' =>
          if lowerChar x = lowerChar c then matchItems ps' xs else []
      | PatItem.sp :: ps' =>
          if isSpaceChar x then matchItems ps' xs ++ matchItems ps xs else []

/-- Is the character at index `i` of `t` a word character (`false` out of
range, as `re` treats positions beyond the string)? -/
def wordAt (t : List Char) (i : Nat) : Bool :=
  match t.get? i with
  | some c => isWordChar c
  | none => false

/-- The `\b` zero-width assertion at position `i` of `t`: the word-ness of
the previous character differs from the word-ness of the current one. -/
def boundary (t : List Char) (i : Nat) : Bool :=
  (if i = 0 then false else wordAt t (i - 1)) != wordAt t i

/-- Model of `article_matches_exact_phrase` from `update_news/__init__.py`:
returns `False` on an empty title, otherwise searches the title for
`\b ⟨escaped phrase, spaces → \s+⟩ \b` case-insensitively. -/
def article_matches_exact_phrase (title phrase : String) : Bool :=
  if title = "" then false
  else
    let t := title.toList
    (List.range (t.length + 1)).any fun i =>
      boundary t i &&
        (matchItems (mkPat phrase) (t.drop i)).any fun rest =>
          boundary t (t.length - rest.length)

/-- The claim's reading of the phrase match, taken verbatim from the spec's
words: the phrase appears case-insensitively as a contiguous, word-bounded
substring of the title.  (A second definition following the spec rather
than the source, used to compare the two.) -/
def claimPhraseOccurs (title phrase : String) : Bool :=
  let t := title.toList
  let p := phrase.toList
  (List.range (t.length + 1)).any fun i =>
    decide (i + p.length ≤ t.length) &&
      boundary t i &&
      decide (((t.drop i).take p.length).map lowerChar = p.map lowerChar) &&
      boundary t (i + p.length)

/-- Declarative occurrence relation for the amended phrase-match claim:
`Realizes p mid` says the segment `mid` spells out the phrase characters
`p` case-insensitively, with each single space of the phrase matched by a
nonempty run of whitespace characters. -/
inductive Realizes : List Char → List Char → Prop
  | nil : Realizes [] []
  | lit {c x : Char} {p m : List Char} : c ≠ ' ' → lowerChar x = lowerChar c →
      Realizes p m → Realizes (c :: p) (x :: m)
  | sp {p m : List Char} (run : List Char) : run ≠ [] →
      (∀ y ∈ run, isSpaceChar y = true) → Realizes p m →
      Realizes (' ' :: p) (run ++ m)

/-! ## Data model -/

/-- A stored article record, the shape produced by `process_article` and
persisted in a topic's YAML file.  An absent field is `""`. -/
structure Article where
  title : String
  description : String
  url : String
  date : String
  source : String
  deriving Repr, DecidableEq

/-- A raw provider record as read from the response body.  `description`
is already collapsed to `""` for `None`/absent (the source does
`article.get("description") or ""`); `publishedAt` and the source name are
genuinely optional. -/
structure RawArticle where
  title : String
  description : String
  url : String
  publishedAt : Option String
  sourceName : Option String
  deriving Repr, DecidableEq

/-- A structured provider response body: `status`, `totalResults`,
`articles[]` (each read with a default when absent). -/
structure ApiResponse where
  status : String
  totalResults : Nat
  articles : List RawArticle
  deriving Repr, DecidableEq

/-! ## Dates: a model of `datetime.strptime(s, "%Y-%m-%d")`

CPython's `_strptime` matches `%Y` as exactly four digits, `%m` as
`1[0-2]|0[1-9]|[1-9]` and `%d` as `3[01]|[12]\d|0[1-9]|[1-9]` (leftmost
alternative, with backtracking), requires the whole string to be consumed,
and then `datetime(...)` validates the day against the month length and
rejects year 0.  Parsed dates are turned into the proleptic Gregorian day
ordinal (`date.toordinal`), so that `today - retention_days` is plain
integer arithmetic. -/

/-- Digit value of a character, if it is an ASCII digit. -/
def digitVal (c : Char) : Option Nat :=
  if '0' ≤ c ∧ c ≤ '9' then some (c.toNat - '0'.toNat) else none

/-- The alternatives of `%m` (`1[0-2]|0[1-9]|[1-9]`), in regex order:
each gives the month value and the unconsumed rest. -/
def monthAlts : List Char → List (Nat × List Char)
  | '1' :: c :: rest =>
      (match digitVal c with
        | some v => if v ≤ 2 then [(10 + v, rest)] else []
        | none => []) ++ [(1, c :: rest)]
  | '0' :: c :: rest =>
      match digitVal c with
      | some v => if 1 ≤ v then [(v, rest)] else []
      | none => []
  | c :: rest =>
      match digitVal c with
      | some v => if 1 ≤ v then [(v, rest)] else []
      | none => []
  | [] => []

/-- The alternatives of `%d` (`3[01]|[12]\d|0[1-9]|[1-9]`), in regex order. -/
def dayAlts : List Char → List (Nat × List Char)
  | '3' :: c :: rest =>
      (match digitVal c with
        | some v => if v ≤ 1 then [(30 + v, rest)] else []
        | none => []) ++ [(3, c :: rest)]
  | '1' :: c :: rest =>
      (match digitVal c with
        | some v => [(10 + v, rest)]
        | none => []) ++ [(1, c :: rest)]
  | '2' :: c :: rest =>
      (match digitVal c with
        | some v => [(20 + v, rest)]
        | none => []) ++ [(2, c :: rest)]
  | '0' :: c :: rest =>
      match digitVal c with
      | some v => if 1 ≤ v then [(v, rest)] else []
      | none => []
  | c :: rest =>
      match digitVal c with
      | some v => if 1 ≤ v then [(v, rest)] else []
      | none => []
  | [] => []

/-- Is `y` a Gregorian leap year? -/
def isLeap (y : Nat) : Bool :=
  y % 4 == 0 && (y % 100 != 0 || y % 400 == 0)

/-- Number of days in month `m` of year `y` (for valid `1 ≤ m ≤ 12`). -/
def daysInMonth (y m : Nat) : Nat :=
  if m = 2 then (if isLeap y then 29 else 28)
  else if m = 4 ∨ m = 6 ∨ m = 9 ∨ m = 11 then 30
  else 31

/-- Days in the months strictly before month `m` of year `y`. -/
def daysBeforeMonth (y m : Nat) : Nat :=
  (List.range (m - 1)).foldl (fun acc i => acc + daysInMonth y (i + 1)) 0

/-- Proleptic Gregorian ordinal of the date `(y, m, d)`; `0001-01-01`
is day 1, as in Python's `date.toordinal()`. -/
def dateOrdinal (y m d : Nat) : Int :=
  (365 * (y - 1) + (y - 1) / 4 - (y - 1) / 100 + (y - 1) / 400
    + daysBeforeMonth y m + d : Int)

/-- Parse the exact year-month-day structure of `%Y-%m-%d` with regex
backtracking; yields the first full-string parse. -/
def parseYMD (cs : List Char) : Option (Nat × Nat × Nat) :=
  match cs with
  | y1 :: y2 :: y3 :: y4 :: '-' :: rest =>
      match digitVal y1, digitVal y2, digitVal y3, digitVal y4 with
      | some a, some b, some c, some d =>
          let year := ((a * 10 + b) * 10 + c) * 10 + d
          ((monthAlts rest).filterMap fun mr =>
            match mr.2 with
            | '-' :: rest2 =>
                ((dayAlts rest2).filterMap fun dr =>
                  if dr.2 = [] then some (year, mr.1, dr.1) else none).head?
            | _ => none).head?
      | _, _, _, _ => none
  | _ => none

/-- Model of `datetime.strptime(s, "%Y-%m-%d").date()`, as the day
ordinal: `none` exactly when the Python call raises `ValueError`
(wrong shape, year 0, or day out of range for the month). -/
def parseDate (s : String) : Option Int :=
  match parseYMD s.toList with
  | some (y, m, d) =>
      if 1 ≤ y ∧ d ≤ daysInMonth y m then some (dateOrdinal y m d) else none
  | none => none

/-! ## Retention filtering (`filter_articles_by_retention`) -/

/-- Model of `filter_articles_by_retention`: identity for an empty list or
a non-positive window; otherwise keeps an article iff its date string is
non-empty and either parses to a date `≥ today - retention_days` or fails
to parse (`ValueError`/`TypeError` → keep).  An article with an empty date
string hits the `continue` branch and is dropped. -/
def filter_articles_by_retention (news_items : List Article)
    (retention_days : Int) (today : Int) : List Article :=
  if news_items = [] ∨ retention_days ≤ 0 then news_items
  else
    news_items.filter fun item =>
      if item.date = "" then false
      else
        match parseDate item.date with
        | some d => decide (today - retention_days ≤ d)
        | none => true

/-- The claim's reading of the retention filter, taken verbatim from the
spec's words: for any `R ≥ 0`, keep exactly the articles whose date is
`≥ today - R` together with every article whose date string fails to
parse.  (Spec-side definition, compared against the source model.) -/
def claimRetentionFilter (news_items : List Article)
    (retention_days : Int) (today : Int) : List Article :=
  news_items.filter fun item =>
    match parseDate item.date with
    | some d => decide (today - retention_days ≤ d)
    | none => true

/-! ## Cache merge (`merge_news_articles`)

The Python dict keyed by url is modelled as an insertion-ordered
association list with in-place value update; `list(articles_dict.values())`
is its value list, and the final stable descending sort by the date string
is Mathlib's insertion sort (stable, hence pointwise equal to Python's
Timsort under the same total preorder). -/

/-- Insertion-ordered dict update: replace in place when the key exists,
append otherwise. -/
def upsert (m : List (String × Article)) (k : String) (v : Article) :
    List (String × Article) :=
  if m.any (fun p => p.1 = k) then
    m.map fun p => if p.1 = k then (k, v) else p
  else m ++ [(k, v)]

/-- Fold the articles of `l` into the dict `m`, skipping empty urls, as
both `for` loops of `merge_news_articles` do. -/
def insertAll (m : List (String × Article)) (l : List Article) :
    List (String × Article) :=
  l.foldl (fun m a => if a.url = "" then m else upsert m a.url a) m

/-- First value stored under key `k` (Python dict lookup; keys are unique
in every dict this file builds). -/
def dictFind (m : List (String × Article)) (k : String) : Option Article :=
  (m.find? fun p => p.1 = k).map Prod.snd

/-- Lexicographic code-point `≤` on character lists: the ordering Python
uses to compare strings. -/
def charListLe : List Char → List Char → Bool
  | [], _ => true
  | _ :: _, [] => false
  | a :: as, b :: bs =>
      if a.toNat = b.toNat then charListLe as bs else decide (a.toNat < b.toNat)

/-- Python's `s <= t` on strings. -/
def strLeB (s t : String) : Bool :=
  charListLe s.toList t.toList

/-- Descending order on the date strings, the comparison realised by
Python's stable `sort(key=lambda x: x.get("date",""), reverse=True)`:
`a` may precede `b` iff `a.date` is not code-point-below `b.date`. -/
def dateDesc (a b : Article) : Prop :=
  strLeB b.date a.date = true

instance : DecidableRel dateDesc := fun a b =>
  inferInstanceAs (Decidable (strLeB b.date a.date = true))

/-- Model of `merge_news_articles`: build the url-keyed dict from the
existing articles, overwrite with the new ones, then stable-sort the
values by date, newest first (any stable sort computes the same list as
Python's stable Timsort under the same total preorder). -/
def merge_news_articles (existing_articles new_articles : List Article) :
    List Article :=
  let d := insertAll (insertAll [] existing_articles) new_articles
  List.insertionSort dateDesc (d.map Prod.snd)

/-! ## Request execution and outcome classification (`make_api_request`)

The provider's observable behaviour for one call is an explicit datatype:
a parsed 2xx response, an HTTP error (with a parsed JSON body, an
unparsable raw text body, or no response attribute at all), or any other
raised exception (connection error, timeout, JSON decode failure on a 2xx
body).  `make_api_request` is a total function from behaviour to the
outcome tuple `(response_data, success, is_rate_limited,
is_result_limit_reached)`; wall-clock response time is not modelled. -/

/-- The body attached to an HTTP error response. -/
inductive ErrorBody where
  /-- `response.json()` succeeded: the error code, the raw `message`, the
  lower-cased `str(error_data)` repr, and the `articles`/`totalResults`
  the body may carry. -/
  | jsonBody (code message reprLower : String) (articles : List RawArticle)
      (totalResults : Nat)
  /-- `response.json()` raised: only the raw `response.text` is available. -/
  | rawText (text : String)
  /-- The exception has no usable `response` attribute. -/
  | noResponse

/-- Provider behaviour for a single request. -/
inductive Behaviour where
  | ok (resp : ApiResponse)
  | httpError (body : ErrorBody)
  | exn

/-- The outcome tuple returned by `make_api_request` (response time
omitted). -/
structure ApiResult where
  data : Option ApiResponse
  success : Bool
  rateLimited : Bool
  resultLimit : Bool
  deriving Repr, DecidableEq

/-- The rate-limit indicator keywords of `_is_rate_limit_error`. -/
def rateLimitIndicators : List String :=
  ["rate limit", "rate_limit", "quota", "too many requests", "too many calls",
   "request limit", "api limit exceeded", "throttle", "throttled"]

/-- The rate-limit error codes of `_is_rate_limit_error`. -/
def rateLimitCodes : List String :=
  ["rateLimitExceeded", "tooManyRequests", "quotaExceeded"]

/-- Model of `_is_rate_limit_error`: keyword scan over the (lower-cased)
message and body text, plus the known error codes. -/
def is_rate_limit_error (error_code error_message error_text : String) : Bool :=
  let ml := lowerStr error_message
  let tl := lowerStr error_text
  rateLimitIndicators.any (fun ind => strContains ml ind || strContains tl ind)
    || rateLimitCodes.any (fun c => lowerStr error_code = lowerStr c)

/-- Model of `_is_result_limit_error` (its `error_message`/`error_text`
arguments arrive already lower-cased from `make_api_request`). -/
def is_result_limit_error (error_code error_message error_text : String) : Bool :=
  error_code == "maximumResultsReached"
    || strContains error_message "100 results"
    || strContains error_message "result limit"
    || strContains error_message "maximum results"
    || strContains error_message "max of 100"
    || (strContains error_message "limited to" && strContains error_text "100")

/-- A `Failure` outcome: no payload, nothing flagged. -/
def failureResult : ApiResult := ⟨none, false, false, false⟩

/-- Model of `make_api_request`.  Classification is content-based: for a
JSON error body the rate-limit check runs first, then the result-limit
check (whose handler marks the body processable, `status = "ok"`, when it
carries articles); an unparsable body is scanned, truncated to
`max_error_text_length`, for the same keywords; anything else — including
any raised exception — is a plain failure.  `maxErrLen` is the configured
`article_processing.max_error_text_length`. -/
def make_api_request (maxErrLen : Nat) : Behaviour → ApiResult
  | Behaviour.ok resp => ⟨some resp, true, false, false⟩
  | Behaviour.httpError (ErrorBody.jsonBody code message reprLower articles totalResults) =>
      let error_message := lowerStr message
      let error_text := lowerStr reprLower
      if is_rate_limit_error code error_message error_text then
        ⟨none, false, true, false⟩
      else if is_result_limit_error code error_message error_text then
        if articles ≠ [] then ⟨some ⟨"ok", totalResults, articles⟩, true, false, true⟩
        else ⟨none, false, false, true⟩
      else failureResult
  | Behaviour.httpError (ErrorBody.rawText text) =>
      let error_text := strTake text maxErrLen
      if error_text = "" then failureResult
      else
        let tl := lowerStr error_text
        if is_rate_limit_error "" "" tl then ⟨none, false, true, false⟩
        else if strContains tl "100 results" || strContains tl "result limit"
            || strContains tl "max of 100" then ⟨none, false, false, true⟩
        else failureResult
  | Behaviour.httpError ErrorBody.noResponse => failureResult
  | Behaviour.exn => failureResult

/-! ## Article processing (`process_article`) -/

/-- The run configuration values the core reads (resolved from the YAML
config with their defaults).  `dupStop new len` abstracts the
floating-point test `1.0 - new/len >= early_stop_duplicate_threshold`.
`nowIso` is `datetime.now(timezone.utc).isoformat()`, the default used
when `publishedAt` is absent. -/
structure Config where
  maxApiCalls : Nat
  pageSize : Nat
  minArticles : Nat
  dupStop : Nat → Nat → Bool
  maxDescLen : Nat
  maxErrLen : Nat
  nowIso : String
  freeTier : Bool
  retentionDays : Int
  today : Int

/-- A concrete configuration (the defaults of the source, with a small
page size), used to instantiate universally quantified theorems at
checkable inputs.  `today = 739536` is the ordinal of 2025-10-12. -/
def sampleConfig : Config :=
  { maxApiCalls := 10
    pageSize := 2
    minArticles := 10
    dupStop := fun _ _ => false
    maxDescLen := 250
    maxErrLen := 500
    nowIso := "2025-10-12T00:00:00+00:00"
    freeTier := false
    retentionDays := 60
    today := 739536 }

/-- Model of `process_article` with `use_exact_phrase=True` (the mode both
fetch paths use): validate url/title/duplicate, match the exact phrase,
then format.  Returns `none` when filtered out; on success the caller adds
the url to the seen set, as the Python mutation of `seen_urls` does. -/
def process_article (a : RawArticle) (exact_phrase : String)
    (seen_urls : List String) (cfg : Config) : Option Article :=
  if a.url = "" ∨ a.title = "" ∨ a.url ∈ seen_urls then none
  else if article_matches_exact_phrase a.title exact_phrase = false then none
  else
    some
      { title := a.title
        description :=
          if a.description = "" then "No description available."
          else strTake a.description cfg.maxDescLen
        url := a.url
        date := strTake (a.publishedAt.getD cfg.nowIso) 10
        source := a.sourceName.getD "Unknown" }

/-- Process one page of raw articles in order, threading the seen-url set
and counting how many were newly accepted on this page. -/
def processArticles (arts : List RawArticle) (exact_phrase : String)
    (cfg : Config) (seen : List String) (items : List Article) :
    List Article × List String × Nat :=
  arts.foldl
    (fun acc a =>
      match process_article a exact_phrase acc.2.1 cfg with
      | some p => (acc.1 ++ [p], acc.2.1 ++ [a.url], acc.2.2 + 1)
      | none => acc)
    (items, seen, 0)

/-! ## Pagination (`fetch_from_newsapi`) -/

/-- Sort a list of articles by date, newest first (the
`news_items.sort(key=..., reverse=True)` steps). -/
def sortByDateDesc (l : List Article) : List Article :=
  List.insertionSort dateDesc l

/-- The pagination loop over the remaining page numbers (`for page_num in
range(2, total_pages + 1)`).  Returns the accumulated items, the
rate-limited flag, and the number of provider calls issued by the loop.
Each iteration re-checks the shared run budget before calling; a
rate-limit aborts with what was gathered, a result-limit or any failed /
non-`"ok"` page stops pagination, and the two early-stop heuristics
("enough new articles", "duplicate ratio") run after processing a page. -/
def paginateLoop (cfg : Config) (exact_phrase : String) (resp : Nat → ApiResult) :
    List Nat → Nat → List String → List Article → List Article × Bool × Nat
  | [], _, _, items => (items, false, 0)
  | k :: ks, count, seen, items =>
      if cfg.maxApiCalls ≤ count then (items, false, 0)
      else
        let r := resp k
        if r.rateLimited then (items, true, 1)
        else if r.resultLimit then (items, false, 1)
        else
          match r.data with
          | none => (items, false, 1)
          | some d =>
              if r.success = false then (items, false, 1)
              else if d.status ≠ "ok" then (items, false, 1)
              else
                let pr := processArticles d.articles exact_phrase cfg seen items
                if cfg.minArticles ≤ pr.1.length then (pr.1, false, 1)
                else if d.articles ≠ [] ∧ cfg.dupStop pr.2.2 d.articles.length then
                  (pr.1, false, 1)
                else
                  let rest := paginateLoop cfg exact_phrase resp ks (count + 1) pr.2.1 pr.1
                  (rest.1, rest.2.1, rest.2.2 + 1)

/-- Model of `fetch_from_newsapi` for one topic.  Returns `(news_items,
is_rate_limited, calls_issued)`, where `calls_issued` is how much the
shared `api_call_count['total']` grew.  `maxPagesCfg` is the resolved
per-topic page cap (`topic_config['max_pages'] or api.max_pages`); in
non-free-tier mode it is clamped by the remaining run budget.  A page size
of zero is the `ZeroDivisionError` path: the outer `except` returns an
empty list after the first call. -/
def fetch_from_newsapi (cfg : Config) (apiKey titleQuery : String)
    (maxPagesCfg : Nat) (resp : Nat → ApiResult) (count0 : Nat) :
    List Article × Bool × Nat :=
  if apiKey = "" then ([], false, 0)
  else if cfg.maxApiCalls ≤ count0 then ([], false, 0)
  else if titleQuery = "" then ([], false, 0)
  else
    let maxPages := if cfg.freeTier then 1
      else min maxPagesCfg (cfg.maxApiCalls - count0)
    if maxPages = 0 then ([], false, 0)
    else
      let r := resp 1
      if r.rateLimited then ([], true, 1)
      else if r.success = false then ([], false, 1)
      else
        match r.data with
        | none => ([], false, 1)
        | some d =>
            if d.status ≠ "ok" ∧ r.resultLimit = false then ([], false, 1)
            else if d.articles = [] then ([], false, 1)
            else
              let pr := processArticles d.articles titleQuery cfg [] []
              if cfg.pageSize = 0 then ([], false, 1)
              else
                let totalPages :=
                  min ((d.totalResults + cfg.pageSize - 1) / cfg.pageSize) maxPages
                if totalPages ≤ 1 then (sortByDateDesc pr.1, false, 1)
                else
                  let rest := paginateLoop cfg titleQuery resp
                    (List.range' 2 (totalPages - 1)) (count0 + 1) pr.2.1 pr.1
                  if rest.2.1 then (rest.1, true, rest.2.2 + 1)
                  else (sortByDateDesc rest.1, false, rest.2.2 + 1)

/-! ## Merge, retention and failure-safe save
(`merge_filter_and_save_articles`) -/

/-- What one merge–filter–save pass did: the merged collection before
retention, the retention-filtered collection, the collection handed to
`update_news_file` (or `none` when the save was skipped to preserve the
cache), the reported success, and the reported article count. -/
structure SaveTrace where
  merged : List Article
  filtered : List Article
  savedCollection : Option (List Article)
  success : Bool
  count : Nat
  deriving Repr, DecidableEq

/-- Model of `merge_filter_and_save_articles`.  `saveOk` is the boolean
result of the `update_news_file` boundary (which never raises).  The save
is only attempted when the filtered collection is non-empty or there was
no cache at all; otherwise the cached articles are preserved untouched. -/
def merge_filter_and_save_articles (existing_articles new_articles : List Article)
    (cfg : Config) (saveOk : Bool) : SaveTrace :=
  let merged :=
    if existing_articles ≠ [] ∧ new_articles ≠ [] then
      merge_news_articles existing_articles new_articles
    else if existing_articles ≠ [] then existing_articles
    else if new_articles ≠ [] then new_articles
    else []
  let filtered :=
    if merged ≠ [] then filter_articles_by_retention merged cfg.retentionDays cfg.today
    else []
  if filtered ≠ [] ∨ existing_articles = [] then
    if saveOk then ⟨merged, filtered, some (sortByDateDesc filtered), true, filtered.length⟩
    else ⟨merged, filtered, some (sortByDateDesc filtered), false, 0⟩
  else ⟨merged, filtered, none, true, existing_articles.length⟩

/-! ## Per-topic run model (`process_topic` and `main`'s per-topic loop) -/

/-- Everything that is external to one topic's processing: its config
entry, its cached collection, the provider's behaviour per page, and
whether its save would succeed. -/
structure TopicEnv where
  topic : String
  priority : Int
  titleQuery : String
  maxPagesCfg : Nat
  cached : List Article
  resp : Nat → ApiResult
  saveOk : Bool

/-- The observable record of one topic's processing within a run. -/
structure TopicTrace where
  topic : String
  priority : Int
  cached : List Article
  processed : Bool
  fetchInvoked : Bool
  calls : Nat
  newArticles : List Article
  merged : List Article
  rateLimited : Bool
  success : Bool
  deriving Repr, DecidableEq

/-- Model of `process_topic`: consult the shared rate-limited flag, fetch
only when an API key exists and the flag is clear, set the flag on a
rate-limited fetch, then merge–filter–save.  Returns the trace and the
updated shared `(call count, rate-limited flag)` state. -/
def process_topic (cfg : Config) (apiKey : String) (e : TopicEnv)
    (count : Nat) (flag : Bool) : TopicTrace × Nat × Bool :=
  let doFetch := apiKey ≠ "" && !flag
  let f := if doFetch then
      fetch_from_newsapi cfg apiKey e.titleQuery e.maxPagesCfg e.resp count
    else ([], false, 0)
  let st := merge_filter_and_save_articles e.cached f.1 cfg e.saveOk
  (⟨e.topic, e.priority, e.cached, true, doFetch, f.2.2, f.1, st.merged,
      f.2.1, st.success⟩,
    count + f.2.2, flag || f.2.1)

/-- The claim-side predicate for a topic that cannot have touched the
provider: no calls issued, nothing fetched, and — when the topic was
processed at all — the merged collection is exactly its unmodified cache. -/
def traceQuiet (tr : TopicTrace) : Prop :=
  tr.calls = 0 ∧ tr.newArticles = [] ∧ (tr.processed = true → tr.merged = tr.cached)

/-- Trace of a topic skipped entirely because the run budget was already
exhausted when its turn came (`break` in `main`'s loop). -/
def skippedTrace (e : TopicEnv) : TopicTrace :=
  ⟨e.topic, e.priority, e.cached, false, false, 0, [], [], false, false⟩

/-- Model of `main`'s per-topic (non-combined) loop: topics are taken in
the order of `news_sources.items()`, the shared call counter and
rate-limited flag are threaded through, and the loop breaks — skipping all
remaining topics — once the counter reaches the maximum. -/
def runTopics (cfg : Config) (apiKey : String) :
    List TopicEnv → Nat → Bool → List TopicTrace
  | [], _, _ => []
  | e :: es, count, flag =>
      let s := process_topic cfg apiKey e count flag
      s.1 ::
        (if cfg.maxApiCalls ≤ s.2.1 then es.map skippedTrace
         else runTopics cfg apiKey es s.2.1 s.2.2)

/-! ## Supporting lemmas: the date order -/

theorem charListLe_total : ∀ a b : List Char, charListLe a b = true ∨ charListLe b a = true
  | [], _ => Or.inl rfl
  | _ :: _, [] => Or.inr rfl
  | a :: as, b :: bs => by
      by_cases h : a.toNat = b.toNat
      · have h' : b.toNat = a.toNat := h.symm
        rcases charListLe_total as bs with ih | ih
        · exact Or.inl (by simp [charListLe, h, ih])
        · exact Or.inr (by simp [charListLe, h', ih])
      · rcases Nat.lt_or_ge a.toNat b.toNat with hlt | hge
        · exact Or.inl (by simp [charListLe, h, hlt])
        · have hlt : b.toNat < a.toNat := Nat.lt_of_le_of_ne hge fun e => h e.symm
          have h' : ¬ b.toNat = a.toNat := fun e => h e.symm
          exact Or.inr (by simp [charListLe, h', hlt])

theorem charListLe_trans : ∀ a b c : List Char,
    charListLe a b = true → charListLe b c = true → charListLe a c = true
  | [], _, _, _, _ => rfl
  | _ :: _, [], _, h, _ => by simp [charListLe] at h
  | _ :: _, _ :: _, [], _, h => by simp [charListLe] at h
  | a :: as, b :: bs, c :: cs, h₁, h₂ => by
      simp only [charListLe] at h₁ h₂ ⊢
      by_cases hab : a.toNat = b.toNat
      · rw [if_pos hab] at h₁
        by_cases hbc : b.toNat = c.toNat
        · rw [if_pos (hab.trans hbc)]
          rw [if_pos hbc] at h₂
          exact charListLe_trans as bs cs h₁ h₂
        · rw [if_neg hbc] at h₂
          have h₂' : b.toNat < c.toNat := of_decide_eq_true h₂
          have hac : a.toNat < c.toNat := by omega
          rw [if_neg (Nat.ne_of_lt hac)]
          exact decide_eq_true hac
      · rw [if_neg hab] at h₁
        have h₁' : a.toNat < b.toNat := of_decide_eq_true h₁
        by_cases hbc : b.toNat = c.toNat
        · have hac : a.toNat < c.toNat := by omega
          rw [if_neg (Nat.ne_of_lt hac)]
          exact decide_eq_true hac
        · rw [if_neg hbc] at h₂
          have h₂' : b.toNat < c.toNat := of_decide_eq_true h₂
          have hac : a.toNat < c.toNat := by omega
          rw [if_neg (Nat.ne_of_lt hac)]
          exact decide_eq_true hac

instance : IsTotal Article dateDesc :=
  ⟨fun a b => charListLe_total b.date.toList a.date.toList⟩

instance : IsTrans Article dateDesc :=
  ⟨fun _ _ _ h₁ h₂ => charListLe_trans _ _ _ h₂ h₁⟩

/-! ## C2 — retention filtering -/

/-- C2 (counterexample): the claim "for every retention window `R ≥ 0` the
filtered output equals exactly {articles with date ≥ today − R} ∪
{articles whose date fails to parse}" is false on the code in two ways,
exhibited at `today = 739536` (2025-10-12): with `R = 0` the code returns
the input unchanged and keeps an article dated 2020-01-01 that the claim
would drop, and with `R = 5` the code drops an article whose date string
is empty even though an empty date fails to parse and the claim would
keep it. -/
theorem C2_counterexample :
    (filter_articles_by_retention [⟨"Old", "d", "u", "2020-01-01", "s"⟩] 0 739536
        = [⟨"Old", "d", "u", "2020-01-01", "s"⟩]
      ∧ claimRetentionFilter [⟨"Old", "d", "u", "2020-01-01", "s"⟩] 0 739536 = [])
    ∧ (filter_articles_by_retention [⟨"NoDate", "d", "u", "", "s"⟩] 5 739536 = []
      ∧ claimRetentionFilter [⟨"NoDate", "d", "u", "", "s"⟩] 5 739536
          = [⟨"NoDate", "d", "u", "", "s"⟩]) := by
  decide

/-- C2 (amended): for every retention window `R ≥ 1`, the retention
filter's output is exactly the articles whose date parses as `%Y-%m-%d`
to a day `≥ today − R`, together with the articles whose **non-empty**
date string fails to parse (fail-open); articles with an empty (absent)
date string are dropped, and every parsable article strictly older than
`today − R` is dropped.  (For `R ≤ 0` the code returns its input
unchanged; that case and the empty-date case are the two corrections.) -/
theorem C2_retention_amended (news_items : List Article)
    (retention_days today : Int) (h : 1 ≤ retention_days) :
    filter_articles_by_retention news_items retention_days today =
      news_items.filter fun item =>
        match parseDate item.date with
        | some d => decide (today - retention_days ≤ d)
        | none => item.date != "" := by
  unfold filter_articles_by_retention
  by_cases hnil : news_items = []
  · subst hnil; simp
  · rw [if_neg (by simp [hnil]; omega)]
    refine List.filter_congr fun item _ => ?_
    by_cases hd : item.date = ""
    · have hp0 : parseDate "" = none := rfl
      simp [hd, hp0]
    · simp only [if_neg hd]
      cases hp : parseDate item.date with
      | some d => rfl
      | none => simp [hd]

/-- C2 (witness): the amended retention theorem applied at a concrete
mixed-age list with `R = 60`, `today = 739536`. -/
theorem C2_witness :
    (1 : Int) ≤ 60 ∧
      filter_articles_by_retention
          [⟨"Recent", "d", "u1", "2025-09-20", "s"⟩,
           ⟨"Old", "d", "u2", "2020-01-01", "s"⟩,
           ⟨"Weird", "d", "u3", "not-a-date", "s"⟩,
           ⟨"NoDate", "d", "u4", "", "s"⟩] 60 739536 =
        ([⟨"Recent", "d", "u1", "2025-09-20", "s"⟩,
          ⟨"Old", "d", "u2", "2020-01-01", "s"⟩,
          ⟨"Weird", "d", "u3", "not-a-date", "s"⟩,
          ⟨"NoDate", "d", "u4", "", "s"⟩] : List Article).filter
          (fun item =>
            match parseDate item.date with
            | some d => decide ((739536 : Int) - 60 ≤ d)
            | none => item.date != "") :=
  ⟨by decide, C2_retention_amended _ 60 739536 (by decide)⟩

/-! ## C8 — request-layer outcome taxonomy -/

/-- C8: for every input and every provider behaviour — a parsed 2xx
response, an HTTP error carrying a JSON body, an unparsable body, or no
response at all, and any raised exception (network failure, timeout, JSON
decode error) — `make_api_request` is a total function returning a value
of the outcome taxonomy: the rate-limited and result-limit flags are never
both set; a rate-limited outcome carries no payload and is not a success;
a payload is carried only by successful outcomes and every successful
outcome carries one; a result-limit outcome is successful exactly when it
carries a (partial) payload; and a raised exception becomes the plain
`Failure` outcome rather than propagating. -/
theorem C8_outcome_taxonomy (maxErrLen : Nat) (b : Behaviour) :
    (¬ ((make_api_request maxErrLen b).rateLimited = true
        ∧ (make_api_request maxErrLen b).resultLimit = true))
    ∧ ((make_api_request maxErrLen b).rateLimited = true →
        (make_api_request maxErrLen b).data = none
          ∧ (make_api_request maxErrLen b).success = false)
    ∧ (∀ d, (make_api_request maxErrLen b).data = some d →
        (make_api_request maxErrLen b).success = true)
    ∧ ((make_api_request maxErrLen b).success = true →
        (make_api_request maxErrLen b).data.isSome = true)
    ∧ ((make_api_request maxErrLen b).resultLimit = true →
        ((make_api_request maxErrLen b).success = true
          ↔ (make_api_request maxErrLen b).data.isSome = true))
    ∧ (b = Behaviour.exn → make_api_request maxErrLen b = failureResult) := by
  cases b with
  | ok resp => simp [make_api_request]
  | exn => simp [make_api_request, failureResult]
  | httpError body =>
      cases body with
      | jsonBody code message reprLower articles totalResults =>
          simp only [make_api_request]
          split
          · simp
          · split
            · split <;> simp
            · simp [failureResult]
      | rawText text =>
          simp only [make_api_request]
          split
          · simp [failureResult]
          · split
            · simp
            · split <;> simp [failureResult]
      | noResponse => simp [make_api_request, failureResult]

/-! ## C5 — no empty save over a non-empty cache -/

/-- C5: for every topic whose cache is non-empty, when the fetch yields no
new articles (failure, rate limit, or no key all hand `[]` to the
merge–save step), `update_news_file` is never invoked with an empty
collection: either the save is skipped entirely (the persisted file stays
exactly as it was) or it is invoked with a non-empty collection (the file
is freshly updated). -/
theorem C5_no_empty_save (existing_articles : List Article) (cfg : Config)
    (saveOk : Bool) (hne : existing_articles ≠ []) :
    (merge_filter_and_save_articles existing_articles [] cfg saveOk).savedCollection = none
    ∨ ∃ c, (merge_filter_and_save_articles existing_articles [] cfg saveOk).savedCollection
          = some c ∧ c ≠ [] := by
  by_cases hf :
      filter_articles_by_retention existing_articles cfg.retentionDays cfg.today = []
  · left
    unfold merge_filter_and_save_articles
    simp [hne, hf]
  · right
    refine ⟨sortByDateDesc
        (filter_articles_by_retention existing_articles cfg.retentionDays cfg.today),
      ?_, ?_⟩
    · unfold merge_filter_and_save_articles
      cases saveOk <;> simp [hne, hf]
    · intro hsort
      apply hf
      have hlen := (List.perm_insertionSort dateDesc
        (filter_articles_by_retention existing_articles cfg.retentionDays cfg.today)).length_eq
      rw [sortByDateDesc] at hsort
      rw [hsort] at hlen
      exact List.eq_nil_of_length_eq_zero (by simpa using hlen.symm)

/-- C5 (witness): the no-empty-save theorem applied to a concrete
non-empty cache whose only article is far outside the retention window,
so the save is skipped and the file is untouched. -/
theorem C5_witness :
    ([⟨"A", "d", "u", "2020-01-01", "s"⟩] : List Article) ≠ []
    ∧ ((merge_filter_and_save_articles [⟨"A", "d", "u", "2020-01-01", "s"⟩] []
          sampleConfig true).savedCollection = none
      ∨ ∃ c, (merge_filter_and_save_articles [⟨"A", "d", "u", "2020-01-01", "s"⟩] []
          sampleConfig true).savedCollection = some c ∧ c ≠ []) :=
  ⟨by decide, C5_no_empty_save _ sampleConfig true (by decide)⟩

/-! ## C1 — pagination never exceeds the call budget -/

/-- The pagination loop issues at most one provider call per remaining
page number. -/
theorem paginateLoop_calls_le (cfg : Config) (phrase : String) (resp : Nat → ApiResult) :
    ∀ (pages : List Nat) (count : Nat) (seen : List String) (items : List Article),
      (paginateLoop cfg phrase resp pages count seen items).2.2 ≤ pages.length
  | [], _, _, _ => Nat.le_refl 0
  | k :: ks, count, seen, items => by
      have ih := fun seen items =>
        paginateLoop_calls_le cfg phrase resp ks (count + 1) seen items
      simp only [paginateLoop, List.length_cons]
      split
      · simp
      · split
        · simp
        · split
          · simp
          · split
            · simp
            · split
              · simp
              · split
                · simp
                · split
                  · simp
                  · split
                    · simp
                    · exact Nat.succ_le_succ (ih _ _)

/-- C1: for every run configuration (outside the free-tier override, which
forces a single page) and every provider response sequence, one topic's
fetch issues at most `min(configured max pages for the topic, remaining
run budget at the topic's start)` provider calls — even when the reported
`totalResults` would imply more pages — and hence no call is ever issued
once the shared run call counter has reached the configured maximum
(a spent budget makes the bound `min(· , 0) = 0`). -/
theorem C1_pagination_budget (cfg : Config) (apiKey titleQuery : String)
    (maxPagesCfg : Nat) (resp : Nat → ApiResult) (count0 : Nat)
    (hft : cfg.freeTier = false) :
    (fetch_from_newsapi cfg apiKey titleQuery maxPagesCfg resp count0).2.2
      ≤ min maxPagesCfg (cfg.maxApiCalls - count0) := by
  unfold fetch_from_newsapi
  by_cases hk : apiKey = ""
  · rw [if_pos hk]; simp
  rw [if_neg hk]
  by_cases hb : cfg.maxApiCalls ≤ count0
  · rw [if_pos hb]; simp
  rw [if_neg hb]
  by_cases ht : titleQuery = ""
  · rw [if_pos ht]; simp
  rw [if_neg ht, hft]
  simp only [Bool.false_eq_true, if_false]
  by_cases hmp : min maxPagesCfg (cfg.maxApiCalls - count0) = 0
  · rw [if_pos hmp]; simp
  rw [if_neg hmp]
  have h1 : 1 ≤ min maxPagesCfg (cfg.maxApiCalls - count0) :=
    Nat.one_le_iff_ne_zero.mpr hmp
  by_cases hr : (resp 1).rateLimited = true
  · simp only [hr, if_true]
    simpa using h1
  simp only [hr, if_false]
  by_cases hs : (resp 1).success = false
  · simp only [hs, if_true]
    simpa using h1
  simp only [hs, if_false]
  cases hd : (resp 1).data with
  | none => simpa using h1
  | some d =>
      simp only [hd]
      by_cases hst : d.status ≠ "ok" ∧ (resp 1).resultLimit = false
      · simp only [if_pos hst]
        simpa using h1
      simp only [if_neg hst]
      by_cases ha : d.articles = []
      · simp only [if_pos ha]
        simpa using h1
      simp only [if_neg ha]
      by_cases hpz : cfg.pageSize = 0
      · simp only [if_pos hpz]
        simpa using h1
      simp only [if_neg hpz]
      have hTPle : min ((d.totalResults + cfg.pageSize - 1) / cfg.pageSize)
          (min maxPagesCfg (cfg.maxApiCalls - count0))
          ≤ min maxPagesCfg (cfg.maxApiCalls - count0) := Nat.min_le_right _ _
      by_cases htp : min ((d.totalResults + cfg.pageSize - 1) / cfg.pageSize)
          (min maxPagesCfg (cfg.maxApiCalls - count0)) ≤ 1
      · simp only [if_pos htp]
        simpa using h1
      · simp only [if_neg htp]
        have hloop := paginateLoop_calls_le cfg titleQuery resp
          (List.range' 2
            (min ((d.totalResults + cfg.pageSize - 1) / cfg.pageSize)
              (min maxPagesCfg (cfg.maxApiCalls - count0)) - 1))
          (count0 + 1)
          (processArticles d.articles titleQuery cfg [] []).2.1
          (processArticles d.articles titleQuery cfg [] []).1
        rw [List.length_range'] at hloop
        repeat' split
        all_goals (try dsimp only)
        all_goals omega

/-- C1 (witness): the budget bound at a concrete run: remaining budget 2
(8 of 10 calls already used), topic page cap 5, provider reporting 20
total results — at most `min 5 2` calls are issued. -/
theorem C1_witness :
    sampleConfig.freeTier = false
    ∧ (fetch_from_newsapi sampleConfig "key" "AI" 5
        (fun _ => ⟨some ⟨"ok", 20,
          [⟨"AI story", "d", "u1", some "2025-10-01T00:00:00Z", none⟩]⟩,
          true, false, false⟩) 8).2.2
      ≤ min 5 (sampleConfig.maxApiCalls - 8) :=
  ⟨by decide, C1_pagination_budget sampleConfig "key" "AI" 5 _ 8 (by decide)⟩

/-! ## C9 — topic processing order -/

/-- C9 (counterexample): the claim "a topic with a lower priority value is
always processed before any topic with a higher priority value" is false
on the package's per-topic loop: with two configured topics whose
priorities are 2 and 1 in configuration order, the run processes the
priority-2 topic first — the priority sequence along the processing order
is `[2, 1]`, not sorted ascending. -/
theorem C9_counterexample :
    ((runTopics sampleConfig ""
        [⟨"second", 2, "AI", 5, [], fun _ => failureResult, true⟩,
         ⟨"first", 1, "ML", 5, [], fun _ => failureResult, true⟩] 0 false).map
      (fun tr => (tr.topic, tr.priority))) = [("second", 2), ("first", 1)]
    ∧ ¬ List.Sorted (· ≤ ·)
        ((runTopics sampleConfig ""
          [⟨"second", 2, "AI", 5, [], fun _ => failureResult, true⟩,
           ⟨"first", 1, "ML", 5, [], fun _ => failureResult, true⟩] 0 false).map
          (fun tr => tr.priority)) := by
  constructor
  · decide
  · decide

/-- C9 (amended): in per-topic (non-combined) mode the topics are
processed one at a time, sequentially, in the order they appear in the
configuration (`news_sources.items()`); the topics' priority values do not
influence the processing order.  (The legacy top-level script sorted by
priority; the package module deliberately processes in config order.) -/
theorem C9_config_order_amended (cfg : Config) (apiKey : String) :
    ∀ (envs : List TopicEnv) (count : Nat) (flag : Bool),
      (runTopics cfg apiKey envs count flag).map (fun tr => tr.topic)
        = envs.map (fun e => e.topic)
  | [], _, _ => rfl
  | e :: es, count, flag => by
      simp only [runTopics, List.map_cons, List.cons.injEq]
      refine ⟨rfl, ?_⟩
      split
      · simp [skippedTrace, List.map_map, Function.comp]
      · exact C9_config_order_amended cfg apiKey es _ _

/-! ## C4 — a rate limit on topic *i* silences topics *i+1..N* -/

/-- When the fetch hands no new articles to the merge–save step, the
merged collection is exactly the unmodified cache. -/
theorem merged_of_no_new (ex : List Article) (cfg : Config) (saveOk : Bool) :
    (merge_filter_and_save_articles ex [] cfg saveOk).merged = ex := by
  unfold merge_filter_and_save_articles
  repeat' split
  all_goals simp_all
  all_goals (repeat' split)
  all_goals simp_all

/-- A topic skipped by the budget `break` is quiet. -/
theorem skippedTrace_quiet (e : TopicEnv) : traceQuiet (skippedTrace e) :=
  ⟨rfl, rfl, fun h => by simp [skippedTrace] at h⟩

/-- Once the shared rate-limited flag is set, every remaining topic in the
run is quiet: no provider call, no new articles, merged collection equal
to its cache. -/
theorem runTopics_flagged (cfg : Config) (apiKey : String) :
    ∀ (envs : List TopicEnv) (count : Nat),
      ∀ tr ∈ runTopics cfg apiKey envs count true, traceQuiet tr
  | [], _, _, h => absurd h (List.not_mem_nil _)
  | e :: es, count, tr, h => by
      simp only [runTopics] at h
      rcases List.mem_cons.mp h with h | h
      · subst h
        unfold process_topic
        refine ⟨?_, ?_, fun _ => ?_⟩ <;>
          simp [Bool.not_true, Bool.and_false, merged_of_no_new]
      · have hflag : (process_topic cfg apiKey e count true).2.2 = true := rfl
        rw [hflag] at h
        revert h
        split
        · intro h
          obtain ⟨e', _, rfl⟩ := List.mem_map.mp h
          exact skippedTrace_quiet e'
        · intro h
          exact runTopics_flagged cfg apiKey es _ tr h

/-- C4: in per-topic mode, if the trace of some topic *i* reports a
RateLimited outcome, then every topic after it in the same run issues no
provider call, fetches nothing, and — when processed at all — falls back
to merging exactly its unmodified cached collection (the shared
rate-limited flag makes each subsequent topic skip its fetch). -/
theorem C4_rate_limit_halts (cfg : Config) (apiKey : String) :
    ∀ (envs : List TopicEnv) (count : Nat) (flag : Bool)
      (pre post : List TopicTrace) (tri : TopicTrace),
      runTopics cfg apiKey envs count flag = pre ++ tri :: post →
      tri.rateLimited = true →
      ∀ tr ∈ post, traceQuiet tr
  | [], _, _, pre, post, tri, heq => by simp [runTopics] at heq
  | e :: es, count, flag, [], post, tri, heq => by
      intro hrl tr htr
      simp only [runTopics, List.nil_append, List.cons.injEq] at heq
      obtain ⟨h1, h2⟩ := heq
      have hflag : (process_topic cfg apiKey e count flag).2.2 = true := by
        have h0 : (process_topic cfg apiKey e count flag).2.2
            = (flag || (process_topic cfg apiKey e count flag).1.rateLimited) := rfl
        rw [h0, h1, hrl, Bool.or_true]
      rw [hflag] at h2
      rw [← h2] at htr
      revert htr
      split
      · intro htr
        obtain ⟨e', _, rfl⟩ := List.mem_map.mp htr
        exact skippedTrace_quiet e'
      · intro htr
        exact runTopics_flagged cfg apiKey es _ tr htr
  | e :: es, count, flag, p :: pre, post, tri, heq => by
      intro hrl tr htr
      simp only [runTopics, List.cons_append, List.cons.injEq] at heq
      obtain ⟨-, h2⟩ := heq
      revert h2
      split
      · intro h2
        have hmem : tri ∈ List.map skippedTrace es := by
          rw [h2]
          exact List.mem_append_right _ (List.mem_cons_self _ _)
        obtain ⟨e', _, rfl⟩ := List.mem_map.mp hmem
        simp [skippedTrace] at hrl
      · intro h2
        exact C4_rate_limit_halts cfg apiKey es _ _ pre post tri h2 hrl tr htr

/-- C4 (witness): a concrete two-topic run whose first topic is
rate-limited on its first call; the second topic's trace is quiet and its
merged collection is its untouched cache. -/
theorem C4_witness :
    runTopics sampleConfig "key"
        [⟨"t1", 1, "AI", 5, [⟨"A", "d", "ua", "2025-09-01", "S"⟩],
            fun _ => ⟨none, false, true, false⟩, true⟩,
         ⟨"t2", 2, "ML", 5, [⟨"B", "d", "ub", "2025-09-02", "S"⟩],
            fun _ => ⟨some ⟨"ok", 1, []⟩, true, false, false⟩, true⟩] 0 false
      = [] ++ (⟨"t1", 1, [⟨"A", "d", "ua", "2025-09-01", "S"⟩], true, true, 1, [],
            [⟨"A", "d", "ua", "2025-09-01", "S"⟩], true, true⟩ : TopicTrace) ::
          [⟨"t2", 2, [⟨"B", "d", "ub", "2025-09-02", "S"⟩], true, false, 0, [],
            [⟨"B", "d", "ub", "2025-09-02", "S"⟩], false, true⟩]
    ∧ (⟨"t1", 1, [⟨"A", "d", "ua", "2025-09-01", "S"⟩], true, true, 1, [],
          [⟨"A", "d", "ua", "2025-09-01", "S"⟩], true, true⟩ : TopicTrace).rateLimited = true
    ∧ ∀ tr ∈ [(⟨"t2", 2, [⟨"B", "d", "ub", "2025-09-02", "S"⟩], true, false, 0, [],
          [⟨"B", "d", "ub", "2025-09-02", "S"⟩], false, true⟩ : TopicTrace)], traceQuiet tr :=
  ⟨by decide, by decide,
    C4_rate_limit_halts sampleConfig "key"
      [⟨"t1", 1, "AI", 5, [⟨"A", "d", "ua", "2025-09-01", "S"⟩],
          fun _ => ⟨none, false, true, false⟩, true⟩,
       ⟨"t2", 2, "ML", 5, [⟨"B", "d", "ub", "2025-09-02", "S"⟩],
          fun _ => ⟨some ⟨"ok", 1, []⟩, true, false, false⟩, true⟩] 0 false
      []
      [⟨"t2", 2, [⟨"B", "d", "ub", "2025-09-02", "S"⟩], true, false, 0, [],
          [⟨"B", "d", "ub", "2025-09-02", "S"⟩], false, true⟩]
      ⟨"t1", 1, [⟨"A", "d", "ua", "2025-09-01", "S"⟩], true, true, 1, [],
          [⟨"A", "d", "ua", "2025-09-01", "S"⟩], true, true⟩
      (by decide) (by decide)⟩

/-! ## C3 and C10 - cache merge: fresh wins, union by url, sorted; empty urls dropped, unique urls -/

theorem map_fst_upsert_of_any {m : List (String × Article)} {k : String} {v : Article}
    (h : m.any (fun p => p.1 = k) = true) :
    (upsert m k v).map Prod.fst = m.map Prod.fst := by
  unfold upsert
  rw [if_pos h, List.map_map]
  refine List.map_congr_left fun p _ => ?_
  by_cases hp : p.1 = k
  · simp [hp]
  · simp [hp]

theorem map_fst_upsert_of_not_any {m : List (String × Article)} {k : String} {v : Article}
    (h : ¬ m.any (fun p => p.1 = k) = true) :
    (upsert m k v).map Prod.fst = m.map Prod.fst ++ [k] := by
  unfold upsert
  rw [if_neg h, List.map_append]
  rfl

theorem mem_map_fst_upsert {m : List (String × Article)} {k u : String} {v : Article} :
    u ∈ (upsert m k v).map Prod.fst ↔ u ∈ m.map Prod.fst ∨ u = k := by
  by_cases h : m.any (fun p => p.1 = k) = true
  · rw [map_fst_upsert_of_any h]
    constructor
    · exact Or.inl
    · rintro (hu | rfl)
      · exact hu
      · obtain ⟨p, hp, hpk⟩ := List.any_eq_true.mp h
        exact List.mem_map.mpr ⟨p, hp, of_decide_eq_true hpk⟩
  · rw [map_fst_upsert_of_not_any h]
    simp

theorem nodup_map_fst_upsert {m : List (String × Article)} {k : String} {v : Article}
    (h : (m.map Prod.fst).Nodup) : ((upsert m k v).map Prod.fst).Nodup := by
  by_cases ha : m.any (fun p => p.1 = k) = true
  · rw [map_fst_upsert_of_any ha]; exact h
  · rw [map_fst_upsert_of_not_any ha]
    rw [List.nodup_append]
    refine ⟨h, List.nodup_singleton k, ?_⟩
    intro x hx hk
    rcases List.mem_singleton.mp hk with rfl
    obtain ⟨p, hp, rfl⟩ := List.mem_map.mp hx
    exact ha (List.any_eq_true.mpr ⟨p, hp, by simp⟩)

theorem entry_url_upsert {m : List (String × Article)} {k : String} {v : Article}
    (hm : ∀ p ∈ m, p.2.url = p.1) (hv : v.url = k) :
    ∀ p ∈ upsert m k v, p.2.url = p.1 := by
  intro p hp
  unfold upsert at hp
  split at hp
  · obtain ⟨q, hq, hqe⟩ := List.mem_map.mp hp
    by_cases hqk : q.1 = k
    · rw [if_pos hqk] at hqe
      rw [← hqe]
      exact hv
    · rw [if_neg hqk] at hqe
      rw [← hqe]
      exact hm q hq
  · rcases List.mem_append.mp hp with h | h
    · exact hm p h
    · rcases List.mem_singleton.mp h with rfl
      exact hv

theorem dictFind_replace_of_any {k : String} {v : Article} :
    ∀ {m : List (String × Article)}, m.any (fun p => p.1 = k) = true →
      dictFind (m.map (fun p => if p.1 = k then (k, v) else p)) k = some v := by
  intro m
  induction m with
  | nil => intro h; simp at h
  | cons a m ih =>
      intro h
      by_cases hak : a.1 = k
      · simp only [List.map_cons, if_pos hak, dictFind, List.find?]
        simp [dictFind] at ih ⊢
      · simp only [List.map_cons, if_neg hak, dictFind, List.find?]
        have h' : m.any (fun p => p.1 = k) = true := by
          rcases List.any_eq_true.mp h with ⟨p, hp, hpk⟩
          rcases List.mem_cons.mp hp with rfl | hp'
          · exact absurd (of_decide_eq_true hpk) hak
          · exact List.any_eq_true.mpr ⟨p, hp', hpk⟩
        have := ih h'
        simp only [dictFind] at this
        simpa [hak] using this

theorem dictFind_append_single {k : String} {v : Article} :
    ∀ {m : List (String × Article)}, ¬ m.any (fun p => p.1 = k) = true →
      dictFind (m ++ [(k, v)]) k = some v := by
  intro m
  induction m with
  | nil => intro _; simp [dictFind, List.find?]
  | cons a m ih =>
      intro h
      have hak : ¬ a.1 = k := fun e => h (List.any_eq_true.mpr ⟨a, List.mem_cons_self a m, by simp [e]⟩)
      have h' : ¬ m.any (fun p => p.1 = k) = true := fun e => by
        rcases List.any_eq_true.mp e with ⟨p, hp, hpk⟩
        exact h (List.any_eq_true.mpr ⟨p, List.mem_cons_of_mem a hp, hpk⟩)
      have := ih h'
      simp only [dictFind, List.cons_append, List.find?] at this ⊢
      simpa [hak] using this

theorem dictFind_upsert_self (m : List (String × Article)) (k : String) (v : Article) :
    dictFind (upsert m k v) k = some v := by
  unfold upsert
  split
  · exact dictFind_replace_of_any (by assumption)
  · exact dictFind_append_single (by assumption)

theorem dictFind_replace_other {k u : String} {v : Article} (hu : u ≠ k) :
    ∀ (m : List (String × Article)),
      dictFind (m.map (fun p => if p.1 = k then (k, v) else p)) u = dictFind m u
  | [] => rfl
  | a :: m => by
      have ih := dictFind_replace_other (v := v) hu m
      by_cases hak : a.1 = k
      · have h1 : decide ((k, v).1 = u) = false := decide_eq_false fun e => hu e.symm
        have h2 : decide (a.1 = u) = false :=
          decide_eq_false fun e => hu (by rw [← hak]; exact e.symm)
        simp only [List.map_cons, if_pos hak, dictFind, List.find?, h1, h2] at ih ⊢
        exact ih
      · by_cases hau : a.1 = u
        · have h1 : decide (a.1 = u) = true := decide_eq_true hau
          simp only [List.map_cons, if_neg hak, dictFind, List.find?, h1]
        · have h1 : decide (a.1 = u) = false := decide_eq_false hau
          simp only [List.map_cons, if_neg hak, dictFind, List.find?, h1] at ih ⊢
          exact ih

theorem dictFind_append_single_other {k u : String} {v : Article} (hu : u ≠ k) :
    ∀ (m : List (String × Article)), dictFind (m ++ [(k, v)]) u = dictFind m u
  | [] => by
      have h1 : decide ((k, v).1 = u) = false := decide_eq_false fun e => hu e.symm
      simp [dictFind, List.find?, h1]
  | a :: m => by
      have ih := dictFind_append_single_other (v := v) hu m
      by_cases hau : a.1 = u
      · have h1 : decide (a.1 = u) = true := decide_eq_true hau
        simp only [List.cons_append, dictFind, List.find?, h1]
      · have h1 : decide (a.1 = u) = false := decide_eq_false hau
        simp only [List.cons_append, dictFind, List.find?, h1] at ih ⊢
        exact ih

theorem dictFind_upsert_other {m : List (String × Article)} {k u : String} {v : Article}
    (hu : u ≠ k) : dictFind (upsert m k v) u = dictFind m u := by
  unfold upsert
  split
  · exact dictFind_replace_other hu m
  · exact dictFind_append_single_other hu m

theorem insertAll_cons (m : List (String × Article)) (a : Article) (l : List Article) :
    insertAll m (a :: l) = insertAll (if a.url = "" then m else upsert m a.url a) l := by
  unfold insertAll
  rfl

theorem insertAll_entry_url :
    ∀ (l : List Article) (m : List (String × Article)),
      (∀ p ∈ m, p.2.url = p.1) → ∀ p ∈ insertAll m l, p.2.url = p.1
  | [], m, hm => hm
  | a :: l, m, hm => by
      rw [insertAll_cons]
      refine insertAll_entry_url l _ ?_
      by_cases ha : a.url = ""
      · rw [if_pos ha]; exact hm
      · rw [if_neg ha]; exact entry_url_upsert hm rfl

theorem insertAll_keys_nodup :
    ∀ (l : List Article) (m : List (String × Article)),
      (m.map Prod.fst).Nodup → ((insertAll m l).map Prod.fst).Nodup
  | [], _, hm => hm
  | a :: l, m, hm => by
      rw [insertAll_cons]
      refine insertAll_keys_nodup l _ ?_
      by_cases ha : a.url = ""
      · rw [if_pos ha]; exact hm
      · rw [if_neg ha]; exact nodup_map_fst_upsert hm

theorem insertAll_keys_mem :
    ∀ (l : List Article) (m : List (String × Article)) (u : String),
      (u ∈ (insertAll m l).map Prod.fst
        ↔ u ∈ m.map Prod.fst ∨ (u ≠ "" ∧ ∃ a ∈ l, a.url = u))
  | [], m, u => by
      rw [show insertAll m [] = m from rfl]
      simp
  | a :: l, m, u => by
      rw [insertAll_cons, insertAll_keys_mem l _ u]
      by_cases ha : a.url = ""
      · rw [if_pos ha]
        constructor
        · rintro (h | h)
          · exact Or.inl h
          · exact Or.inr ⟨h.1, h.2.choose, List.mem_cons_of_mem a h.2.choose_spec.1, h.2.choose_spec.2⟩
        · rintro (h | ⟨hu, b, hb, hbu⟩)
          · exact Or.inl h
          · rcases List.mem_cons.mp hb with rfl | hb'
            · exact absurd (hbu ▸ ha) hu
            · exact Or.inr ⟨hu, b, hb', hbu⟩
      · rw [if_neg ha, mem_map_fst_upsert]
        constructor
        · rintro ((h | rfl) | h)
          · exact Or.inl h
          · exact Or.inr ⟨ha, a, List.mem_cons_self a l, rfl⟩
          · exact Or.inr ⟨h.1, h.2.choose, List.mem_cons_of_mem a h.2.choose_spec.1, h.2.choose_spec.2⟩
        · rintro (h | ⟨hu, b, hb, hbu⟩)
          · exact Or.inl (Or.inl h)
          · rcases List.mem_cons.mp hb with rfl | hb'
            · exact Or.inl (Or.inr hbu.symm)
            · exact Or.inr ⟨hu, b, hb', hbu⟩

theorem insertAll_find_not_mem :
    ∀ (l : List Article) (m : List (String × Article)) (u : String),
      (¬ ∃ b ∈ l, b.url = u) → u ≠ "" →
      dictFind (insertAll m l) u = dictFind m u
  | [], _, _, _, _ => rfl
  | a :: l, m, u, hnb, hu => by
      rw [insertAll_cons]
      have hnb' : ¬ ∃ b ∈ l, b.url = u := fun ⟨b, hb, hbu⟩ =>
        hnb ⟨b, List.mem_cons_of_mem a hb, hbu⟩
      rw [insertAll_find_not_mem l _ u hnb' hu]
      by_cases ha : a.url = ""
      · rw [if_pos ha]
      · rw [if_neg ha]
        have hau : u ≠ a.url := fun e => hnb ⟨a, List.mem_cons_self a l, e.symm⟩
        exact dictFind_upsert_other hau

theorem insertAll_find_mem :
    ∀ (l : List Article) (m : List (String × Article)) (u : String),
      u ≠ "" → (∃ b ∈ l, b.url = u) →
      ∃ v, dictFind (insertAll m l) u = some v ∧ v ∈ l ∧ v.url = u
  | [], _, _, _, h => absurd h (by simp)
  | a :: l, m, u, hu, hex => by
      rw [insertAll_cons]
      by_cases hl : ∃ b ∈ l, b.url = u
      · obtain ⟨v, hv, hvl, hvu⟩ := insertAll_find_mem l _ u hu hl
        exact ⟨v, hv, List.mem_cons_of_mem a hvl, hvu⟩
      · have hau : a.url = u := by
          rcases hex with ⟨b, hb, hbu⟩
          rcases List.mem_cons.mp hb with rfl | hb'
          · exact hbu
          · exact absurd ⟨b, hb', hbu⟩ hl
        subst hau
        rw [if_neg hu, insertAll_find_not_mem l _ a.url hl hu]
        exact ⟨a, dictFind_upsert_self m a.url a, List.mem_cons_self a l, rfl⟩

theorem dictFind_of_mem_nodup :
    ∀ {m : List (String × Article)}, (m.map Prod.fst).Nodup →
      ∀ p ∈ m, dictFind m p.1 = some p.2
  | [], _, p, hp => absurd hp (List.not_mem_nil p)
  | a :: m, hnd, p, hp => by
      rw [List.map_cons, List.nodup_cons] at hnd
      rcases List.mem_cons.mp hp with rfl | hp'
      · simp [dictFind, List.find?]
      · have hne : ¬ a.1 = p.1 := fun e =>
          hnd.1 (e ▸ List.mem_map.mpr ⟨p, hp', rfl⟩)
        have h1 : decide (a.1 = p.1) = false := decide_eq_false hne
        have ih := dictFind_of_mem_nodup hnd.2 p hp'
        simp only [dictFind, List.find?, h1] at ih ⊢
        exact ih

theorem countP_values_eq_one {m : List (String × Article)} {u : String}
    (hnd : (m.map Prod.fst).Nodup) (hinv : ∀ p ∈ m, p.2.url = p.1)
    (hmem : u ∈ m.map Prod.fst) :
    (m.map Prod.snd).countP (fun c => decide (c.url = u)) = 1 := by
  rw [List.countP_map]
  have h1 : (m.map Prod.fst).countP (fun k => decide (k = u))
      = m.countP ((fun c => decide (c.url = u)) ∘ Prod.snd) := by
    rw [List.countP_map]
    refine List.countP_congr fun p hp => ?_
    simp [Function.comp, hinv p hp]
  rw [← h1]
  have h2 : (m.map Prod.fst).countP (fun k => decide (k = u))
      = (m.map Prod.fst).count u := by
    rw [List.count_eq_countP]
    refine List.countP_congr fun k _ => ?_
    constructor
    · intro h; simpa using of_decide_eq_true h
    · intro h; exact decide_eq_true (by simpa using h)
  rw [h2]
  exact List.count_eq_one_of_mem hnd hmem

/-- C3: for every cached list and every freshly fetched list of articles
(articles per the data model: non-empty urls, and the fetch's per-cycle
deduplication making fresh urls unique), the merge keyed by url contains,
for each url present in both lists, exactly one record, and it is the
freshly fetched version; the result's urls are exactly the union of the
two lists' urls; and the result is sorted by date descending. -/
theorem C3_merge (existing_articles new_articles : List Article)
    (hurl : ∀ a ∈ existing_articles ++ new_articles, a.url ≠ "")
    (hnodup : (new_articles.map (fun a => a.url)).Nodup) :
    (∀ u, (∃ a ∈ existing_articles, a.url = u) → (∃ b ∈ new_articles, b.url = u) →
        ((merge_news_articles existing_articles new_articles).countP
            (fun c => decide (c.url = u)) = 1
          ∧ ∀ c ∈ merge_news_articles existing_articles new_articles, c.url = u →
              c ∈ new_articles ∧ ∀ b ∈ new_articles, b.url = u → c = b))
    ∧ (∀ u, (∃ c ∈ merge_news_articles existing_articles new_articles, c.url = u)
          ↔ ∃ a ∈ existing_articles ++ new_articles, a.url = u)
    ∧ List.Sorted dateDesc (merge_news_articles existing_articles new_articles) := by
  have hinv : ∀ p ∈ insertAll (insertAll [] existing_articles) new_articles,
      p.2.url = p.1 :=
    insertAll_entry_url _ _ (insertAll_entry_url _ [] (fun p hp => absurd hp (List.not_mem_nil p)))
  have hnd : ((insertAll (insertAll [] existing_articles) new_articles).map Prod.fst).Nodup :=
    insertAll_keys_nodup _ _ (insertAll_keys_nodup _ [] List.nodup_nil)
  have hperm : List.Perm (merge_news_articles existing_articles new_articles)
      ((insertAll (insertAll [] existing_articles) new_articles).map Prod.snd) := by
    unfold merge_news_articles
    exact List.perm_insertionSort dateDesc _
  have hkeys : ∀ u, u ∈ ((insertAll (insertAll [] existing_articles) new_articles).map Prod.fst)
      ↔ (u ≠ "" ∧ (∃ a ∈ existing_articles, a.url = u) ∨ u ≠ "" ∧ ∃ b ∈ new_articles, b.url = u) := by
    intro u
    rw [insertAll_keys_mem, insertAll_keys_mem]
    simp only [List.map_nil, List.not_mem_nil, false_or]
  refine ⟨?_, ?_, ?_⟩
  · intro u hex hnew
    have hu : u ≠ "" := by
      obtain ⟨b, hb, rfl⟩ := hnew
      exact hurl b (List.mem_append_right _ hb)
    have hmemk : u ∈ ((insertAll (insertAll [] existing_articles) new_articles).map Prod.fst) :=
      (hkeys u).mpr (Or.inr ⟨hu, hnew⟩)
    constructor
    · rw [hperm.countP_eq]
      exact countP_values_eq_one hnd hinv hmemk
    · intro c hc hcu
      obtain ⟨v, hvfind, hvnew, hvu⟩ := insertAll_find_mem new_articles _ u hu hnew
      have hcval : c ∈ (insertAll (insertAll [] existing_articles) new_articles).map Prod.snd :=
        hperm.mem_iff.mp hc
      obtain ⟨p, hp, hpe⟩ := List.mem_map.mp hcval
      have hp1 : p.1 = u := by rw [← hinv p hp, hpe, hcu]
      have hfind : dictFind (insertAll (insertAll [] existing_articles) new_articles) u = some c := by
        have := dictFind_of_mem_nodup hnd p hp
        rw [hp1, hpe] at this
        exact this
      have hcv : c = v := by
        rw [hfind] at hvfind
        exact Option.some.inj hvfind
      subst hcv
      refine ⟨hvnew, fun b hb hbu => ?_⟩
      exact List.inj_on_of_nodup_map hnodup hvnew hb (by rw [hvu, hbu])
  · intro u
    constructor
    · rintro ⟨c, hc, rfl⟩
      have hcval : c ∈ (insertAll (insertAll [] existing_articles) new_articles).map Prod.snd :=
        hperm.mem_iff.mp hc
      obtain ⟨p, hp, hpe⟩ := List.mem_map.mp hcval
      have hp1 : p.1 = c.url := by rw [← hinv p hp, hpe]
      have : c.url ∈ ((insertAll (insertAll [] existing_articles) new_articles).map Prod.fst) :=
        hp1 ▸ List.mem_map.mpr ⟨p, hp, rfl⟩
      rcases (hkeys _).mp this with ⟨_, a, ha, hau⟩ | ⟨_, b, hb, hbu⟩
      · exact ⟨a, List.mem_append_left _ ha, hau⟩
      · exact ⟨b, List.mem_append_right _ hb, hbu⟩
    · rintro ⟨a, ha, rfl⟩
      have hu : a.url ≠ "" := hurl a ha
      have hmemk : a.url ∈ ((insertAll (insertAll [] existing_articles) new_articles).map Prod.fst) := by
        refine (hkeys _).mpr ?_
        rcases List.mem_append.mp ha with h | h
        · exact Or.inl ⟨hu, a, h, rfl⟩
        · exact Or.inr ⟨hu, a, h, rfl⟩
      obtain ⟨p, hp, hpe⟩ := List.mem_map.mp hmemk
      refine ⟨p.2, hperm.mem_iff.mpr (List.mem_map.mpr ⟨p, hp, rfl⟩), ?_⟩
      rw [hinv p hp, hpe]
  · unfold merge_news_articles
    exact List.sorted_insertionSort dateDesc _

theorem insertAll_filter_ne_empty :
    ∀ (l : List Article) (m : List (String × Article)),
      insertAll m (l.filter (fun a => !(a.url == ""))) = insertAll m l
  | [], _ => rfl
  | a :: l, m => by
      by_cases ha : a.url = ""
      · rw [List.filter_cons_of_neg (by simp [ha]), insertAll_cons, if_pos ha]
        exact insertAll_filter_ne_empty l m
      · rw [List.filter_cons_of_pos (by simp [ha]), insertAll_cons, insertAll_cons,
          if_neg ha]
        exact insertAll_filter_ne_empty l _

/-- C3 (witness): the merge theorem applied to a concrete cache and fetch
sharing the url `"u1"`: the fresh version wins, the union of urls is
preserved and the output is date-sorted. -/
theorem C3_witness :
    (∀ a ∈ ([⟨"t1", "d", "u1", "2025-01-10", "s"⟩,
        ⟨"t2", "d", "u2", "2025-03-01", "s"⟩] : List Article)
        ++ [⟨"t1new", "d", "u1", "2025-02-01", "s"⟩], a.url ≠ "")
    ∧ (([⟨"t1new", "d", "u1", "2025-02-01", "s"⟩] : List Article).map
        (fun a => a.url)).Nodup
    ∧ ((∀ u, (∃ a ∈ ([⟨"t1", "d", "u1", "2025-01-10", "s"⟩,
            ⟨"t2", "d", "u2", "2025-03-01", "s"⟩] : List Article), a.url = u) →
          (∃ b ∈ ([⟨"t1new", "d", "u1", "2025-02-01", "s"⟩] : List Article), b.url = u) →
          ((merge_news_articles
              [⟨"t1", "d", "u1", "2025-01-10", "s"⟩, ⟨"t2", "d", "u2", "2025-03-01", "s"⟩]
              [⟨"t1new", "d", "u1", "2025-02-01", "s"⟩]).countP
              (fun c => decide (c.url = u)) = 1
            ∧ ∀ c ∈ merge_news_articles
                [⟨"t1", "d", "u1", "2025-01-10", "s"⟩, ⟨"t2", "d", "u2", "2025-03-01", "s"⟩]
                [⟨"t1new", "d", "u1", "2025-02-01", "s"⟩], c.url = u →
                c ∈ ([⟨"t1new", "d", "u1", "2025-02-01", "s"⟩] : List Article)
                  ∧ ∀ b ∈ ([⟨"t1new", "d", "u1", "2025-02-01", "s"⟩] : List Article),
                      b.url = u → c = b))
      ∧ (∀ u, (∃ c ∈ merge_news_articles
              [⟨"t1", "d", "u1", "2025-01-10", "s"⟩, ⟨"t2", "d", "u2", "2025-03-01", "s"⟩]
              [⟨"t1new", "d", "u1", "2025-02-01", "s"⟩], c.url = u)
            ↔ ∃ a ∈ ([⟨"t1", "d", "u1", "2025-01-10", "s"⟩,
                ⟨"t2", "d", "u2", "2025-03-01", "s"⟩] : List Article)
                ++ [⟨"t1new", "d", "u1", "2025-02-01", "s"⟩], a.url = u)
      ∧ List.Sorted dateDesc (merge_news_articles
          [⟨"t1", "d", "u1", "2025-01-10", "s"⟩, ⟨"t2", "d", "u2", "2025-03-01", "s"⟩]
          [⟨"t1new", "d", "u1", "2025-02-01", "s"⟩])) :=
  ⟨by decide, by decide,
    C3_merge
      [⟨"t1", "d", "u1", "2025-01-10", "s"⟩, ⟨"t2", "d", "u2", "2025-03-01", "s"⟩]
      [⟨"t1new", "d", "u1", "2025-02-01", "s"⟩] (by decide) (by decide)⟩

/-- C10: for every pair of input lists, the merge silently drops every
article (cached or fresh) whose url is empty/absent — filtering them out
of either input changes nothing — and the merged output never contains
two articles with the same url: every output article has a non-empty url
that is unique within the result. -/
theorem C10_merge (existing_articles new_articles : List Article) :
    merge_news_articles existing_articles new_articles
      = merge_news_articles (existing_articles.filter (fun a => !(a.url == "")))
          (new_articles.filter (fun a => !(a.url == "")))
    ∧ (∀ c ∈ merge_news_articles existing_articles new_articles, c.url ≠ "")
    ∧ ((merge_news_articles existing_articles new_articles).map (fun c => c.url)).Nodup := by
  have hinv : ∀ p ∈ insertAll (insertAll [] existing_articles) new_articles,
      p.2.url = p.1 :=
    insertAll_entry_url _ _ (insertAll_entry_url _ [] (fun p hp => absurd hp (List.not_mem_nil p)))
  have hnd : ((insertAll (insertAll [] existing_articles) new_articles).map Prod.fst).Nodup :=
    insertAll_keys_nodup _ _ (insertAll_keys_nodup _ [] List.nodup_nil)
  have hperm : List.Perm (merge_news_articles existing_articles new_articles)
      ((insertAll (insertAll [] existing_articles) new_articles).map Prod.snd) := by
    unfold merge_news_articles
    exact List.perm_insertionSort dateDesc _
  refine ⟨?_, ?_, ?_⟩
  · unfold merge_news_articles
    rw [insertAll_filter_ne_empty, insertAll_filter_ne_empty]
  · intro c hc
    obtain ⟨p, hp, hpe⟩ := List.mem_map.mp (hperm.mem_iff.mp hc)
    have hp1 : p.1 ∈ ((insertAll (insertAll [] existing_articles) new_articles).map Prod.fst) :=
      List.mem_map.mpr ⟨p, hp, rfl⟩
    rcases (insertAll_keys_mem _ _ _).mp hp1 with h | h
    · rcases (insertAll_keys_mem _ _ _).mp h with h' | h'
      · simp at h'
      · intro he
        rw [← hpe, hinv p hp] at he
        exact h'.1 he
    · intro he
      rw [← hpe, hinv p hp] at he
      exact h.1 he
  · have h1 := hperm.map (fun c => c.url)
    have h2 : ((insertAll (insertAll [] existing_articles) new_articles).map Prod.snd).map
        (fun c => c.url) = (insertAll (insertAll [] existing_articles) new_articles).map Prod.fst := by
      rw [List.map_map]
      exact List.map_congr_left fun p hp => by
        simp only [Function.comp]
        exact hinv p hp
    rw [h1.nodup_iff, h2]
    exact hnd

/-! ## C6 - exact-phrase matching -/

/-- C6 (counterexample): the claim "the phrase match succeeds iff the
phrase appears case-insensitively as a contiguous, word-bounded substring
of the title" is falsified by a title with two spaces between the words:
the compiled regex turns each phrase space into `\\s+`, so
"Deep  Learning rocks" matches the phrase "Deep Learning" even though the
phrase is not a substring of the title. -/
theorem C6_counterexample :
    article_matches_exact_phrase "Deep  Learning rocks" "Deep Learning" = true
    ∧ claimPhraseOccurs "Deep  Learning rocks" "Deep Learning" = false := by
  constructor
  · decide
  · decide

theorem matchItems_nil (s : List Char) : matchItems [] s = [s] := by
  cases s <;> rfl

theorem matchItems_append :
    ∀ (mid : List Char) (ps : List PatItem) (rest : List Char),
      [] ∈ matchItems ps mid → rest ∈ matchItems ps (mid ++ rest)
  | [], ps, rest, h => by
      cases ps with
      | nil =>
          rw [List.nil_append, matchItems_nil]
          exact List.mem_singleton.mpr rfl
      | cons p ps' => simp [matchItems] at h
  | x :: xs, ps, rest, h => by
      cases ps with
      | nil =>
          rw [matchItems_nil] at h
          simp at h
      | cons p ps' =>
          cases p with
          | lit c =>
              simp only [matchItems] at h ⊢
              by_cases hc : lowerChar x = lowerChar c
              · rw [if_pos hc] at h ⊢
                exact matchItems_append xs ps' rest h
              · rw [if_neg hc] at h
                simp at h
          | sp =>
              simp only [matchItems] at h ⊢
              by_cases hx : isSpaceChar x = true
              · rw [if_pos hx] at h ⊢
                rcases List.mem_append.mp h with h' | h'
                · exact List.mem_append_left _ (matchItems_append xs ps' rest h')
                · exact List.mem_append_right _ (matchItems_append xs (PatItem.sp :: ps') rest h')
              · rw [if_neg hx] at h
                simp at h

theorem matchItems_decomp :
    ∀ (s : List Char) (ps : List PatItem) (rest : List Char),
      rest ∈ matchItems ps s →
      ∃ mid, s = mid ++ rest ∧ [] ∈ matchItems ps mid
  | [], ps, rest, h => by
      cases ps with
      | nil =>
          rw [matchItems_nil] at h
          rcases List.mem_singleton.mp h with rfl
          exact ⟨[], rfl, by rw [matchItems_nil]; exact List.mem_singleton.mpr rfl⟩
      | cons p ps' => simp [matchItems] at h
  | x :: xs, ps, rest, h => by
      cases ps with
      | nil =>
          rw [matchItems_nil] at h
          rcases List.mem_singleton.mp h with rfl
          exact ⟨[], rfl, by rw [matchItems_nil]; exact List.mem_singleton.mpr rfl⟩
      | cons p ps' =>
          cases p with
          | lit c =>
              simp only [matchItems] at h
              by_cases hc : lowerChar x = lowerChar c
              · rw [if_pos hc] at h
                obtain ⟨mid', he, hm⟩ := matchItems_decomp xs ps' rest h
                refine ⟨x :: mid', by rw [List.cons_append, he], ?_⟩
                simp only [matchItems]
                rw [if_pos hc]
                exact hm
              · rw [if_neg hc] at h
                simp at h
          | sp =>
              simp only [matchItems] at h
              by_cases hx : isSpaceChar x = true
              · rw [if_pos hx] at h
                rcases List.mem_append.mp h with h' | h'
                · obtain ⟨mid', he, hm⟩ := matchItems_decomp xs ps' rest h'
                  refine ⟨x :: mid', by rw [List.cons_append, he], ?_⟩
                  simp only [matchItems]
                  rw [if_pos hx]
                  exact List.mem_append_left _ hm
                · obtain ⟨mid', he, hm⟩ := matchItems_decomp xs (PatItem.sp :: ps') rest h'
                  refine ⟨x :: mid', by rw [List.cons_append, he], ?_⟩
                  simp only [matchItems]
                  rw [if_pos hx]
                  exact List.mem_append_right _ hm
              · rw [if_neg hx] at h
                simp at h

theorem realizes_nil_iff (m : List Char) : Realizes [] m ↔ m = [] := by
  constructor
  · intro h
    cases h
    rfl
  · rintro rfl
    exact Realizes.nil

theorem realizes_cons_iff (c : Char) (p : List Char) (m : List Char) :
    Realizes (c :: p) m ↔
      ((c ≠ ' ' ∧ ∃ x m', m = x :: m' ∧ lowerChar x = lowerChar c ∧ Realizes p m')
        ∨ (c = ' ' ∧ ∃ run m', m = run ++ m' ∧ run ≠ []
            ∧ (∀ y ∈ run, isSpaceChar y = true) ∧ Realizes p m')) := by
  constructor
  · intro h
    cases h with
    | lit hc hl hr => exact Or.inl ⟨hc, _, _, rfl, hl, hr⟩
    | sp run hne hsp hr => exact Or.inr ⟨rfl, run, _, rfl, hne, hsp, hr⟩
  · rintro (⟨hc, x, m', rfl, hl, hr⟩ | ⟨rfl, run, m', rfl, hne, hsp, hr⟩)
    · exact Realizes.lit hc hl hr
    · exact Realizes.sp run hne hsp hr

theorem matchItems_realizes :
    ∀ (mid : List Char) (p : List Char),
      ([] ∈ matchItems
          (p.map (fun c => if c = ' ' then PatItem.sp else PatItem.lit c)) mid
        ↔ Realizes p mid)
  | [], p => by
      cases p with
      | nil =>
          rw [List.map_nil, matchItems_nil]
          simp only [List.mem_singleton]
          constructor
          · intro _
            exact Realizes.nil
          · intro _
            trivial
      | cons c p' =>
          constructor
          · intro h
            simp [matchItems] at h
          · intro h
            rw [realizes_cons_iff] at h
            rcases h with ⟨_, x, m', he, _, _⟩ | ⟨_, run, m', he, hne, _, _⟩
            · cases he
            · cases run with
              | nil => exact absurd rfl hne
              | cons y run' => cases he
  | x :: xs, p => by
      cases p with
      | nil =>
          rw [List.map_nil, matchItems_nil]
          simp only [List.mem_singleton]
          constructor
          · intro h
            cases h
          · intro h
            rw [realizes_nil_iff] at h
            cases h
      | cons c p' =>
          by_cases hc : c = ' '
          · subst hc
            have hmap : (' ' :: p').map (fun c => if c = ' ' then PatItem.sp else PatItem.lit c)
                = PatItem.sp :: p'.map (fun c => if c = ' ' then PatItem.sp else PatItem.lit c) := by
              simp
            rw [hmap]
            simp only [matchItems]
            by_cases hx : isSpaceChar x = true
            · rw [if_pos hx, List.mem_append]
              have ih1 := matchItems_realizes xs p'
              have ih2 := matchItems_realizes xs (' ' :: p')
              rw [hmap] at ih2
              constructor
              · rintro (h | h)
                · refine Realizes.sp [x] (by simp) ?_ (ih1.mp h)
                  intro y hy
                  rcases List.mem_singleton.mp hy with rfl
                  exact hx
                · have h2 := ih2.mp h
                  rw [realizes_cons_iff] at h2
                  rcases h2 with ⟨hne, _⟩ | ⟨_, run, m', he, hne, hsp, hr⟩
                  · exact absurd rfl hne
                  · have hs := Realizes.sp (p := p') (m := m') (x :: run) (by simp) ?_ hr
                    · rw [List.cons_append, ← he] at hs
                      exact hs
                    · intro y hy
                      rcases List.mem_cons.mp hy with rfl | hy'
                      · exact hx
                      · exact hsp y hy'
              · intro h
                rw [realizes_cons_iff] at h
                rcases h with ⟨hne, _⟩ | ⟨_, run, m', he, hne, hsp, hr⟩
                · exact absurd rfl hne
                · cases run with
                  | nil => exact absurd rfl hne
                  | cons y run' =>
                      rw [List.cons_append] at he
                      injection he with h1 h2
                      cases run' with
                      | nil =>
                          rw [List.nil_append] at h2
                          exact Or.inl (ih1.mpr (h2 ▸ hr))
                      | cons z run'' =>
                          refine Or.inr (ih2.mpr ?_)
                          rw [realizes_cons_iff]
                          refine Or.inr ⟨rfl, z :: run'', m', h2, by simp, ?_, hr⟩
                          intro w hw
                          exact hsp w (List.mem_cons_of_mem y hw)
            · rw [if_neg hx]
              constructor
              · intro h
                simp at h
              · intro h
                rw [realizes_cons_iff] at h
                rcases h with ⟨hne, _⟩ | ⟨_, run, m', he, hne, hsp, _⟩
                · exact absurd rfl hne
                · cases run with
                  | nil => exact absurd rfl hne
                  | cons y run' =>
                      rw [List.cons_append] at he
                      injection he with h1 h2
                      exact absurd (show isSpaceChar x = true from by
                        rw [h1]; exact hsp y (List.mem_cons_self y run')) hx
          · simp only [List.map_cons, if_neg hc, matchItems]
            by_cases hl : lowerChar x = lowerChar c
            · rw [if_pos hl, matchItems_realizes xs p']
              constructor
              · intro h
                exact Realizes.lit hc hl h
              · intro h
                rw [realizes_cons_iff] at h
                rcases h with ⟨_, x', m', he, hl', hr⟩ | ⟨he, _⟩
                · injection he with h1 h2
                  exact h2 ▸ hr
                · exact absurd he hc
            · rw [if_neg hl]
              constructor
              · intro h
                simp at h
              · intro h
                rw [realizes_cons_iff] at h
                rcases h with ⟨_, x', m', he, hl', _⟩ | ⟨he, _⟩
                · injection he with h1 h2
                  exact absurd (h1 ▸ hl') hl
                · exact absurd he hc

set_option maxRecDepth 20000 in
/-- C6 (amended): for every article title and every search phrase, the
phrase match succeeds iff the title is non-empty and contains a segment
that spells out the phrase case-insensitively — with each single space of
the phrase matched by a nonempty run of whitespace characters — delimited
on both sides by a regex word boundary; in particular the title
"New Deep Learning Breakthrough" matches the phrase "Deep Learning" and
"Deep understanding of Machine Learning" does not (words not
contiguous). -/
theorem C6_phrase_amended :
    (∀ title phrase, article_matches_exact_phrase title phrase = true ↔
      (title ≠ "" ∧ ∃ pre mid post, title.toList = (pre ++ mid) ++ post
        ∧ Realizes phrase.toList mid
        ∧ boundary title.toList pre.length = true
        ∧ boundary title.toList (pre.length + mid.length) = true))
    ∧ article_matches_exact_phrase "New Deep Learning Breakthrough" "Deep Learning" = true
    ∧ article_matches_exact_phrase "Deep understanding of Machine Learning" "Deep Learning"
        = false := by
  refine ⟨?_, by decide, by decide⟩
  intro title phrase
  have hmk : mkPat phrase
      = phrase.toList.map (fun c => if c = ' ' then PatItem.sp else PatItem.lit c) := rfl
  unfold article_matches_exact_phrase
  by_cases ht : title = ""
  · rw [if_pos ht]
    simp [ht]
  · rw [if_neg ht]
    simp only [List.any_eq_true, Bool.and_eq_true, List.mem_range, decide_eq_true_eq]
    constructor
    · rintro ⟨i, hi, hb, hrest⟩
      obtain ⟨rest, hrmem, hbend⟩ := hrest
      rw [hmk] at hrmem
      obtain ⟨mid, hdecomp, hmid⟩ := matchItems_decomp _ _ _ hrmem
      have hle : i ≤ title.toList.length := Nat.lt_succ_iff.mp hi
      have hlentake : (title.toList.take i).length = i := by
        rw [List.length_take]
        exact Nat.min_eq_left hle
      have hdl : title.toList.length - i = mid.length + rest.length := by
        have := congrArg List.length hdecomp
        rw [List.length_drop, List.length_append] at this
        exact this
      refine ⟨ht, title.toList.take i, mid, rest, ?_, ?_, ?_, ?_⟩
      · rw [List.append_assoc, ← hdecomp, List.take_append_drop]
      · exact (matchItems_realizes mid phrase.toList).mp hmid
      · rw [hlentake]
        exact hb
      · rw [hlentake]
        have he : title.toList.length - rest.length = i + mid.length := by omega
        rw [← he]
        exact hbend
    · rintro ⟨_, pre, mid, post, hdec, hreal, hb1, hb2⟩
      have hlen : title.toList.length = pre.length + mid.length + post.length := by
        rw [hdec]
        simp [List.length_append]
        omega
      refine ⟨pre.length, by omega, hb1, ?_⟩
      refine ⟨post, ?_, ?_⟩
      · rw [hmk]
        have hdrop : title.toList.drop pre.length = mid ++ post := by
          rw [hdec, List.append_assoc, List.drop_left]
        rw [hdrop]
        exact matchItems_append mid _ post ((matchItems_realizes mid phrase.toList).mpr hreal)
      · have he : title.toList.length - post.length = pre.length + mid.length := by omega
        rw [he]
        exact hb2

/-! ## C7 - result-limit classification and carried partial payloads -/

set_option maxRecDepth 20000 in
/-- C7 (counterexample): two failures of the claim as stated.  First, an
error body whose message carries both a result-ceiling phrase ("limited to
a max of 100 results") and a rate-limit keyword ("quota") is classified
RateLimited, not ResultLimitReached — rate-limit detection runs first.
Second, when a result-limit response carrying an article arrives on page 2
of a topic fetch, pagination stops but the carried article (url "u3") is
discarded: the fetch result contains only the page-1 articles. -/
theorem C7_counterexample :
    is_result_limit_error ""
        "quota exceeded: accounts are limited to a max of 100 results" "x 100" = true
    ∧ make_api_request 500 (Behaviour.httpError (ErrorBody.jsonBody ""
        "Quota exceeded: accounts are limited to a max of 100 results" "x 100" [] 0))
      = ⟨none, false, true, false⟩
    ∧ ((fetch_from_newsapi sampleConfig "key" "AI" 5
        (fun k => if k = 1
          then ⟨some ⟨"ok", 6,
              [⟨"AI one", "d", "u1", some "2025-10-01T00:00:00Z", none⟩,
               ⟨"AI two", "d", "u2", some "2025-10-02T00:00:00Z", none⟩]⟩,
            true, false, false⟩
          else ⟨some ⟨"ok", 0,
              [⟨"AI three", "d", "u3", some "2025-10-03T00:00:00Z", none⟩]⟩,
            true, false, true⟩) 0).1.map (fun a => a.url)
      = ["u2", "u1"]) := by
  refine ⟨by decide, by decide, by decide⟩

/-- Helper for C7: absent rate-limit keywords, a JSON error body with
result-ceiling keywords is classified ResultLimitReached, and carried
articles become a processable payload with status `"ok"`. -/
theorem make_api_request_result_limit_precedence (maxErrLen : Nat) (code message reprLower : String)
    (articles : List RawArticle) (totalResults : Nat)
    (hnr : ¬ is_rate_limit_error code (lowerStr message) (lowerStr reprLower) = true)
    (hrl : is_result_limit_error code (lowerStr message) (lowerStr reprLower) = true) :
    make_api_request maxErrLen
        (Behaviour.httpError (ErrorBody.jsonBody code message reprLower articles totalResults))
      = if articles ≠ [] then ⟨some ⟨"ok", totalResults, articles⟩, true, false, true⟩
        else ⟨none, false, false, true⟩ := by
  simp only [make_api_request]
  rw [if_neg hnr, if_pos hrl]

/-- Helper for C7: on pages ≥ 2 a result-limit response stops pagination
without treating the page as an error, leaving the accumulated items
unchanged (one call is counted; the carried payload is not read). -/
theorem paginateLoop_result_limit_stops (cfg : Config) (phrase : String) (resp : Nat → ApiResult)
    (k : Nat) (ks : List Nat) (count : Nat) (seen : List String) (items : List Article)
    (hb : ¬ cfg.maxApiCalls ≤ count)
    (hnr : (resp k).rateLimited = false) (hrl : (resp k).resultLimit = true) :
    paginateLoop cfg phrase resp (k :: ks) count seen items = (items, false, 1) := by
  unfold paginateLoop
  rw [if_neg hb]
  simp [hnr, hrl]

/-- Helper for C7: on the first page, a result-limit outcome whose body
carries articles is processed as usable data: the fetch returns exactly
the processed carried articles (sorted), not an error, in one call. -/
theorem fetch_first_page_result_limit (cfg : Config) (apiKey titleQuery : String)
    (maxPagesCfg : Nat) (resp : Nat → ApiResult) (count0 : Nat) (d : ApiResponse)
    (hk : apiKey ≠ "") (ht : titleQuery ≠ "") (hb : ¬ cfg.maxApiCalls ≤ count0)
    (hmp : ¬ (if cfg.freeTier = true then 1
        else min maxPagesCfg (cfg.maxApiCalls - count0)) = 0)
    (hps : ¬ cfg.pageSize = 0)
    (hr : resp 1 = ⟨some d, true, false, true⟩)
    (ha : ¬ d.articles = []) (htot : d.totalResults ≤ cfg.pageSize) :
    fetch_from_newsapi cfg apiKey titleQuery maxPagesCfg resp count0
      = (sortByDateDesc (processArticles d.articles titleQuery cfg [] []).1, false, 1) := by
  unfold fetch_from_newsapi
  rw [if_neg hk, if_neg hb, if_neg ht]
  dsimp only
  rw [if_neg hmp, hr]
  dsimp only
  have hplt : 0 < cfg.pageSize := Nat.pos_of_ne_zero hps
  have hx : (d.totalResults + cfg.pageSize - 1) / cfg.pageSize < 2 :=
    (Nat.div_lt_iff_lt_mul hplt).mpr (by omega)
  have htp : ((d.totalResults + cfg.pageSize - 1) / cfg.pageSize ⊓
      if cfg.freeTier = true then 1 else maxPagesCfg ⊓ (cfg.maxApiCalls - count0)) ≤ 1 := by
    have h1 := Nat.min_le_left ((d.totalResults + cfg.pageSize - 1) / cfg.pageSize)
      (if cfg.freeTier = true then 1 else maxPagesCfg ⊓ (cfg.maxApiCalls - count0))
    omega
  rw [if_neg (by simp : ¬ (false = true)), if_neg (by simp : ¬ (true = false)),
    if_neg (by simp : ¬ (d.status ≠ "ok" ∧ true = false)), if_neg ha, if_neg hps,
    if_pos htp]

/-- C7 (amended): error responses whose body carries result-ceiling
keywords are classified ResultLimitReached rather than Failure **unless**
the body also carries rate-limit keywords, which take precedence; a
partial article list carried in such a body is returned as usable data
when the result limit strikes the first page of a topic fetch (pagination
then stops, not an error), while on subsequent pages pagination stops
without adding the carried articles. -/
theorem C7_result_limit_amended :
    (∀ (maxErrLen : Nat) (code message reprLower : String)
        (articles : List RawArticle) (totalResults : Nat),
      ¬ is_rate_limit_error code (lowerStr message) (lowerStr reprLower) = true →
      is_result_limit_error code (lowerStr message) (lowerStr reprLower) = true →
      make_api_request maxErrLen
          (Behaviour.httpError (ErrorBody.jsonBody code message reprLower articles totalResults))
        = if articles ≠ [] then ⟨some ⟨"ok", totalResults, articles⟩, true, false, true⟩
          else ⟨none, false, false, true⟩)
    ∧ (∀ (cfg : Config) (apiKey titleQuery : String) (maxPagesCfg : Nat)
        (resp : Nat → ApiResult) (count0 : Nat) (d : ApiResponse),
      apiKey ≠ "" → titleQuery ≠ "" → ¬ cfg.maxApiCalls ≤ count0 →
      ¬ (if cfg.freeTier = true then 1
          else min maxPagesCfg (cfg.maxApiCalls - count0)) = 0 →
      ¬ cfg.pageSize = 0 →
      resp 1 = ⟨some d, true, false, true⟩ →
      ¬ d.articles = [] → d.totalResults ≤ cfg.pageSize →
      fetch_from_newsapi cfg apiKey titleQuery maxPagesCfg resp count0
        = (sortByDateDesc (processArticles d.articles titleQuery cfg [] []).1, false, 1))
    ∧ (∀ (cfg : Config) (phrase : String) (resp : Nat → ApiResult)
        (k : Nat) (ks : List Nat) (count : Nat) (seen : List String) (items : List Article),
      ¬ cfg.maxApiCalls ≤ count →
      (resp k).rateLimited = false → (resp k).resultLimit = true →
      paginateLoop cfg phrase resp (k :: ks) count seen items = (items, false, 1)) :=
  ⟨fun maxErrLen code message reprLower articles totalResults hnr hrl =>
      make_api_request_result_limit_precedence maxErrLen code message reprLower
        articles totalResults hnr hrl,
    fun cfg apiKey titleQuery maxPagesCfg resp count0 d hk ht hb hmp hps hr ha htot =>
      fetch_first_page_result_limit cfg apiKey titleQuery maxPagesCfg resp count0 d
        hk ht hb hmp hps hr ha htot,
    fun cfg phrase resp k ks count seen items hb hnr hrl =>
      paginateLoop_result_limit_stops cfg phrase resp k ks count seen items hb hnr hrl⟩

set_option maxRecDepth 20000 in
/-- C7 (witness): the amended theorem applied at concrete inputs: a
`maximumResultsReached` body with one carried article becomes a
processable `"ok"` payload; a first-page result-limit fetch returns
exactly that processed article; a page-2 result-limit stops the loop with
the accumulated items unchanged. -/
theorem C7_witness :
    make_api_request 500 (Behaviour.httpError (ErrorBody.jsonBody "maximumResultsReached"
        "you have been limited to a max of 100 results" "code 100"
        [⟨"AI carried", "d", "u9", some "2025-10-05T00:00:00Z", none⟩] 0))
      = (if ([⟨"AI carried", "d", "u9", some "2025-10-05T00:00:00Z", none⟩] : List RawArticle) ≠ []
          then ⟨some ⟨"ok", 0, [⟨"AI carried", "d", "u9", some "2025-10-05T00:00:00Z", none⟩]⟩,
            true, false, true⟩
          else ⟨none, false, false, true⟩)
    ∧ fetch_from_newsapi sampleConfig "key" "AI" 5
        (fun _ => ⟨some ⟨"ok", 0, [⟨"AI carried", "d", "u9", some "2025-10-05T00:00:00Z", none⟩]⟩,
          true, false, true⟩) 0
      = (sortByDateDesc (processArticles
          [⟨"AI carried", "d", "u9", some "2025-10-05T00:00:00Z", none⟩] "AI" sampleConfig [] []).1,
        false, 1)
    ∧ paginateLoop sampleConfig "AI"
        (fun _ => ⟨some ⟨"ok", 0, [⟨"AI carried", "d", "u9", some "2025-10-05T00:00:00Z", none⟩]⟩,
          true, false, true⟩) [2, 3] 1 ["u1"] [⟨"AI one", "d", "u1", "2025-10-01", "S"⟩]
      = ([⟨"AI one", "d", "u1", "2025-10-01", "S"⟩], false, 1) :=
  ⟨C7_result_limit_amended.1 500 "maximumResultsReached"
      "you have been limited to a max of 100 results" "code 100"
      [⟨"AI carried", "d", "u9", some "2025-10-05T00:00:00Z", none⟩] 0
      (by decide) (by decide),
    C7_result_limit_amended.2.1 sampleConfig "key" "AI" 5 _ 0 _
      (by decide) (by decide) (by decide) (by decide) (by decide) rfl (by decide) (by decide),
    C7_result_limit_amended.2.2 sampleConfig "AI" _ 2 [3] 1 _ _
      (by decide) rfl rfl⟩

end UpdateNews
